import Mathlib

/-!
Verification development for the wikilinker entity-matching core.

The JavaScript sources are modelled over `Str := List Char` (one entry per
UTF-16 code unit of the JS string; all inputs considered are BMP text, where
code units and scalar values coincide).  The four candidate-extraction regex
passes of `shared/matcher-core.js` / `lib/matcher.js` are embedded by a small
backtracking regex engine (`reRun`) whose alternation order, greediness and
word-boundary semantics follow the JS `RegExp` engine; the patterns themselves
are transcribed from the source literally.
-/

set_option maxRecDepth 10000

/-- ASCII uppercase letter, the regex class [A-Z]. -/
def isUpperAZ (c : Char) : Bool := 'A' ≤ c && c ≤ 'Z'

/-- ASCII lowercase letter. -/
def isLowerAZ (c : Char) : Bool := 'a' ≤ c && c ≤ 'z'

/-- ASCII letter, the regex class [a-zA-Z]. -/
def isAsciiLetterChar (c : Char) : Bool := isUpperAZ c || isLowerAZ c

/-- ASCII digit. -/
def isDigitChar (c : Char) : Bool := '0' ≤ c && c ≤ '9'

/-- The straight apostrophe character U+0027. -/
def apostC : Char := Char.ofNat 39

/-- Left curly single quote U+2018. -/
def curlyOpenQ : Char := Char.ofNat 8216

/-- Right curly single quote U+2019. -/
def curlyCloseQ : Char := Char.ofNat 8217

/-- JS regex word character \w = [A-Za-z0-9_]. -/
def isWordCharJS (c : Char) : Bool := isAsciiLetterChar c || isDigitChar c || c = '_'

/-- JS regex whitespace \s (the code points that occur in practice: space, tab,
LF, CR, VT, FF, NBSP). -/
def isSpaceJS (c : Char) : Bool :=
  c = ' ' || c = '\t' || c = '\n' || c = Char.ofNat 13 || c = Char.ofNat 11 ||
  c = Char.ofNat 12 || c = Char.ofNat 160

/-- The tail class of a capitalised word token, regex [a-zA-Z'\-]. -/
def capsTailChar (c : Char) : Bool := isAsciiLetterChar c || c = apostC || c = '-'

/-- Text buffers are lists of characters (JS strings, one entry per code unit). -/
abbrev Str := List Char

/-- Whether the character at index i of t is a word character (out of range
counts as non-word, matching JS regex semantics at the string edges). -/
def wordAt (t : Str) (i : Nat) : Bool :=
  match t[i]? with
  | some c => isWordCharJS c
  | none => false

/-- JS regex word boundary \b at position i of t: the word-ness of the
character before differs from the word-ness of the character at i. -/
def boundaryAt (t : Str) (i : Nat) : Bool :=
  (if i = 0 then false else wordAt t (i - 1)) != wordAt t i

/-- JS String.prototype.trim on a character list. -/
def jsTrim (t : Str) : Str :=
  ((t.dropWhile isSpaceJS).reverse.dropWhile isSpaceJS).reverse

/-- Insertion into a JS Set modelled as an insertion-ordered duplicate-free
list: appends the element only if it is not already present. -/
def insertIfNew (l : List Str) (x : Str) : List Str :=
  if l.contains x then l else l ++ [x]

/-! ### A small backtracking regex engine

Mirrors the behaviour of the JS RegExp engine for the constructs the source
uses: character classes, literals, concatenation, ordered alternation, greedy
star and the zero-width word-boundary assertion \b. -/

/-- Regex syntax for the embedded patterns. -/
inductive RE where
  | eps
  | cls (p : Char → Bool)
  | wb
  | seq (a b : RE)
  | alt (a b : RE)
  | star (a : RE)

/-- Literal string as a regex. -/
def litRE (s : Str) : RE :=
  s.foldr (fun c r => RE.seq (RE.cls (fun d => d = c)) r) RE.eps

/-- Greedy plus: one or more. -/
def plusRE (a : RE) : RE := RE.seq a (RE.star a)

/-- Greedy option: prefer matching. -/
def optRE (a : RE) : RE := RE.alt a RE.eps

/-- Backtracking matcher in continuation-passing style.  Tries to match re at
position pos of t, calling k with the position after the match; alternatives
are tried in the same order as the JS engine (left alternative first, greedy
star prefers one more iteration).  Returns the end position of the first
overall success.  The fuel argument bounds recursion depth; it is chosen large
enough for all evaluations in this file. -/
def reRun : Nat → Str → RE → Nat → (Nat → Option Nat) → Option Nat
  | 0, _, _, _, _ => none
  | fuel + 1, t, re, pos, k =>
    match re with
    | .eps => k pos
    | .cls p =>
      match t[pos]? with
      | some c => if p c then k (pos + 1) else none
      | none => none
    | .wb => if boundaryAt t pos then k pos else none
    | .seq a b => reRun fuel t a pos (fun pos2 => reRun fuel t b pos2 k)
    | .alt a b =>
      match reRun fuel t a pos k with
      | some r => some r
      | none => reRun fuel t b pos k
    | .star a =>
      match reRun fuel t a pos
        (fun pos2 => if pos < pos2 then reRun fuel t (.star a) pos2 k else none) with
      | some r => some r
      | none => k pos

/-- Fuel bound used for all regex evaluation. -/
def reFuel (t : Str) : Nat := 2000 + 128 * t.length

/-- First match of re at a position ≥ p: positions are tried in ascending
order (JS leftmost-match rule).  Returns (start, end). -/
def reFirstFrom (t : Str) (re : RE) : Nat → Nat → Option (Nat × Nat)
  | _, 0 => none
  | p, steps + 1 =>
    if p > t.length then none
    else
      match reRun (reFuel t) t re p some with
      | some e => some (p, e)
      | none => reFirstFrom t re (p + 1) steps

/-- All matches of re in t with the JS matchAll / global-flag semantics: after
a match the search resumes at its end position. -/
def matchAllGo (t : Str) (re : RE) : Nat → Nat → List Str
  | _, 0 => []
  | p, steps + 1 =>
    match reFirstFrom t re p (t.length + 1 - p) with
    | none => []
    | some (s, e) =>
      let phrase := (t.drop s).take (e - s)
      let next := if s < e then e else s + 1
      phrase :: matchAllGo t re next steps

/-- All matches of re in t in order. -/
def matchAllRE (t : Str) (re : RE) : List Str :=
  matchAllGo t re 0 (t.length + 2)

/-! ### Shared pattern pieces (matcher-core.js / lib/matcher.js, identical) -/

/-- The capsWord pattern piece [A-Z][a-zA-Z'\-]+ of extractCandidates. -/
def capsWordRE : RE := RE.seq (RE.cls isUpperAZ) (plusRE (RE.cls capsTailChar))

/-- The filler alternation (?:of|and|in|on|under|the|for), in source order. -/
def fillerRE : RE :=
  RE.alt (litRE ("of").data) (RE.alt (litRE ("and").data) (RE.alt (litRE ("in").data)
    (RE.alt (litRE ("on").data) (RE.alt (litRE ("under").data)
      (RE.alt (litRE ("the").data) (litRE ("for").data))))))

/-- One or more whitespace characters, \s+. -/
def spacesRE : RE := plusRE (RE.cls isSpaceJS)

/-- Greedy multi-word pass: \b(W(?:\s+(?:filler|W))*\s+W)\b. -/
def greedyRE : RE :=
  RE.seq RE.wb (RE.seq capsWordRE
    (RE.seq (RE.star (RE.seq spacesRE (RE.alt fillerRE capsWordRE)))
      (RE.seq spacesRE (RE.seq capsWordRE RE.wb))))

/-- Frugal multi-word pass: \b(W(?:\s+W)+)\b. -/
def frugalRE : RE :=
  RE.seq RE.wb (RE.seq capsWordRE (RE.seq (plusRE (RE.seq spacesRE capsWordRE)) RE.wb))

/-- Single capitalised word pass: \b(W)\b. -/
def singleRE : RE := RE.seq RE.wb (RE.seq capsWordRE RE.wb)

/-- Acronym pass: \b([A-Z]{2,6})\b, the bounded repeat unrolled with greedy
optional layers. -/
def acronymRE : RE :=
  RE.seq RE.wb
    (RE.seq (RE.cls isUpperAZ) (RE.seq (RE.cls isUpperAZ)
      (RE.seq (optRE (RE.seq (RE.cls isUpperAZ)
        (optRE (RE.seq (RE.cls isUpperAZ)
          (optRE (RE.seq (RE.cls isUpperAZ) (optRE (RE.cls isUpperAZ)))))))) RE.wb)))

/-- The list of filler words used by trimFillers, in source order. -/
def fillerWords : List Str :=
  [("of").data, ("and").data, ("in").data, ("on").data, ("under").data,
   ("the").data, ("for").data]

/-- One step of the FILLER_LEADING loop: if the phrase starts (case
insensitively) with a filler word followed by at least one whitespace
character, strip the filler and all following whitespace (the regex
^(?:of|and|in|on|under|the|for)\s+ with a greedy \s+). -/
def stripLeadingFiller (p : Str) : Option Str :=
  (fillerWords.filter (fun f =>
      ((p.take f.length).map Char.toLower == f) &&
      (match p.drop f.length with
       | c :: _ => isSpaceJS c
       | [] => false))).head?.map
    (fun f => (p.drop f.length).dropWhile isSpaceJS)

/-- One step of the FILLER_TRAILING loop: if the phrase ends (case
insensitively) with a filler word preceded by at least one whitespace
character, strip the filler and the whole whitespace run before it. -/
def stripTrailingFiller (p : Str) : Option Str :=
  (fillerWords.filter (fun f =>
      ((p.drop (p.length - f.length)).map Char.toLower == f) &&
      (p.length > f.length) &&
      (match (p.take (p.length - f.length)).reverse with
       | c :: _ => isSpaceJS c
       | [] => false))).head?.map
    (fun f => ((p.take (p.length - f.length)).reverse.dropWhile isSpaceJS).reverse)

/-- Iterate a stripping step while it applies (the JS while loops in
trimFillers); each step strictly shortens the phrase so the phrase length
bounds the iteration count. -/
def stripLoop (step : Str → Option Str) : Nat → Str → Str
  | 0, p => p
  | n + 1, p =>
    match step p with
    | some q => stripLoop step n q
    | none => p

/-- trimFillers from matcher-core.js (identical in lib/matcher.js): repeatedly
strip leading then trailing filler words. -/
def trimFillers (phrase : Str) : Str :=
  let r1 := stripLoop stripLeadingFiller (phrase.length + 1) phrase
  stripLoop stripTrailingFiller (r1.length + 1) r1

/-- normaliseCurlyQuotes from matcher-core.js: text.replace(/[‘’]/g, apostrophe). -/
def normaliseCurlyQuotes (t : Str) : Str :=
  t.map (fun c => if c = curlyOpenQ || c = curlyCloseQ then apostC else c)

/-- Shared body of extractCandidates (matcher-core.js and lib/matcher.js differ
only in their SKIP_WORDS set and meetsMinLength rule, which are passed in):
runs the four regex passes in order, trims each match, applies the length and
skip-word filters, accumulates into an insertion-ordered set, and for phrases
from the greedy pass also adds the filler-trimmed variant when it differs and
itself passes the filters. -/
def extractCandidatesGen (minOK : Str → Bool) (skipWords : List Str) (t : Str) : List Str :=
  [(greedyRE, true), (frugalRE, false), (singleRE, false), (acronymRE, false)].foldl
    (fun acc pat =>
      (matchAllRE t pat.1).foldl
        (fun acc2 raw =>
          let phrase := jsTrim raw
          if minOK phrase && !(skipWords.contains phrase) then
            let acc3 := insertIfNew acc2 phrase
            if pat.2 then
              let trimmed := trimFillers phrase
              if trimmed != phrase && minOK trimmed && !(skipWords.contains trimmed) then
                insertIfNew acc3 trimmed
              else acc3
            else acc3
          else acc2)
        acc)
    []

/-- Sentence-final punctuation, the regex class [.!?;]. -/
def isSentencePunct (c : Char) : Bool := c = '.' || c = '!' || c = '?' || c = ';'

/-- Helper for isSentenceStart: the backwards scan over whitespace starting at
index i; mirrors the JS while loop (i decreases, i below zero means start of
buffer). -/
def sentenceScanBack (t : Str) : Nat → Bool
  | 0 =>
    match t[0]? with
    | none => false
    | some c => if isSpaceJS c then true else isSentencePunct c
  | j + 1 =>
    match t[j + 1]? with
    | none => false
    | some c => if isSpaceJS c then sentenceScanBack t j else isSentencePunct c

/-- isSentenceStart from matcher-core.js (duplicated verbatim in
lib/matcher.js): position 0, or preceded - looking backwards past whitespace
only - by the start of the buffer or one of . ! ? ; . -/
def isSentenceStart (t : Str) (index : Nat) : Bool :=
  if index = 0 then true
  else sentenceScanBack t (index - 1)

/-- isPartOfLargerPhrase from matcher-core.js (lib/matcher.js duplicates it
with an extra unused matchText parameter): the occurrence is preceded or
followed, across exactly one space, by a capitalised word.  The lookbehind
regex [A-Z][a-zA-Z'\-]*$ succeeds exactly when the maximal trailing run of
word-tail characters contains an uppercase letter. -/
def isPartOfLargerPhrase (t : Str) (start e : Nat) : Bool :=
  (if start > 0 then
    match t[start - 1]? with
    | some c =>
      if c = ' ' then
        (((t.take (start - 1)).reverse.takeWhile capsTailChar).any isUpperAZ)
      else false
    | none => false
   else false) ||
  (if e < t.length then
    match t[e]? with
    | some c =>
      if c = ' ' then
        (match t.drop (e + 1) with
         | d :: _ => isUpperAZ d
         | [] => false)
      else false
    | none => false
   else false)

/-- The overlap test of findMatches / findMatchesInText, transcribed from the
source: (start >= s && start < e) || (end > s && end <= e) || (start <= s && end >= e). -/
def rangesOverlapJS (start e s ee : Nat) : Bool :=
  (decide (s ≤ start) && decide (start < ee)) ||
  (decide (s < e) && decide (e ≤ ee)) ||
  (decide (start ≤ s) && decide (ee ≤ e))

/-- Whether the literal name occurs at index i of t with word boundaries on
both sides, which is what the regex built from escapeRegExp(name) between two
\b anchors tests at position i. -/
def matchesWBAt (t name : Str) (i : Nat) : Bool :=
  ((t.drop i).take name.length == name) && boundaryAt t i && boundaryAt t (i + name.length)

/-- First word-boundary occurrence of name at a position ≥ i (regex.exec of
the non-global \b-delimited literal pattern). -/
def findFirstWBFrom (t name : Str) : Nat → Nat → Option Nat
  | _, 0 => none
  | i, steps + 1 =>
    if i > t.length then none
    else if matchesWBAt t name i then some i
    else findFirstWBFrom t name (i + 1) steps

/-- First word-boundary occurrence of name in t. -/
def findFirstWB (t name : Str) : Option Nat :=
  findFirstWBFrom t name 0 (t.length + 1)

/-- All word-boundary occurrences of name in t, resuming after the end of each
match (the global-flag exec loop of findMatchesInText).  For an empty name the
JS loop would not terminate; the model advances by one position instead. -/
def findAllWBFrom (t name : Str) : Nat → Nat → List Nat
  | _, 0 => []
  | i, steps + 1 =>
    match findFirstWBFrom t name i (t.length + 1 - i) with
    | none => []
    | some j => j :: findAllWBFrom t name (j + max name.length 1) steps

/-- All word-boundary occurrences of name in t. -/
def findAllWB (t name : Str) : List Nat :=
  findAllWBFrom t name 0 (t.length + 1)

/-- A positional match: a confirmed phrase anchored in a text buffer. -/
structure Match where
  text : Str
  index : Nat
deriving DecidableEq, Repr

/-- Length-descending order used to sort confirmed phrases before overlap
resolution (the JS comparator (a, b) => b.text.length - a.text.length under a
stable sort; the stable insertionSort of Mathlib produces the same list as the
stable JS Array.prototype.sort). -/
def lenDescRel (a b : Str) : Prop := b.length ≤ a.length

instance : DecidableRel lenDescRel := fun a b => Nat.decLe b.length a.length

instance : IsTotal Str lenDescRel := ⟨fun a b => Nat.le_total b.length a.length⟩

instance : IsTrans Str lenDescRel := ⟨fun _ _ _ h1 h2 => Nat.le_trans h2 h1⟩

/-- Same length-descending order on anchored matches. -/
def matchLenDescRel (a b : Match) : Prop := b.text.length ≤ a.text.length

instance : DecidableRel matchLenDescRel := fun a b => Nat.decLe b.text.length a.text.length

instance : IsTotal Match matchLenDescRel :=
  ⟨fun a b => Nat.le_total b.text.length a.text.length⟩

instance : IsTrans Match matchLenDescRel := ⟨fun _ _ _ h1 h2 => Nat.le_trans h2 h1⟩

/-- Position-ascending order for the final sort. -/
def idxRel (a b : Match) : Prop := a.index ≤ b.index

instance : DecidableRel idxRel := fun a b => Nat.decLe a.index b.index

instance : IsTotal Match idxRel := ⟨fun a b => Nat.le_total a.index b.index⟩

instance : IsTrans Match idxRel := ⟨fun _ _ _ h1 h2 => Nat.le_trans h1 h2⟩

namespace Core

/-- SKIP_WORDS of shared/matcher-core.js, transcribed in source order. -/
def SKIP_WORDS : List Str :=
  (["The", "This", "That", "There", "Their", "They", "What", "When",
    "Where", "Which", "Who", "Why", "How",
    "He", "She", "His", "Her", "Him", "Its", "We", "Our", "You", "Your", "My",
    "Monday", "Tuesday", "Wednesday", "Thursday", "Friday", "Saturday", "Sunday",
    "January", "February", "March", "April", "May", "June",
    "July", "August", "September", "October", "November", "December",
    "About", "After", "Again", "Album", "Also", "Ammunition", "Another", "Archive", "Assault",
    "Before", "Being", "Both", "But",
    "Cash", "Cast", "Category", "Christmas", "Code", "Contact", "Control", "Copyright",
    "Despite", "Download",
    "Each", "Email", "Error", "Even", "Every", "Everything", "Evidence", "Expect",
    "Family", "Film", "Fireworks", "First", "Following", "Former", "Free", "Freedom", "From",
    "General", "Golden", "Good", "Great", "Greatness", "Greed",
    "Here",
    "Image", "Indeed",
    "Just",
    "Keep",
    "Language", "Last", "Life", "Like", "Link", "List", "Live",
    "Machine", "Many", "Media", "Meanwhile", "Minutes", "More", "Most", "Much",
    "Name", "Nation", "Never", "New", "News", "Next", "Night", "Nobody", "None", "Nothing", "Number",
    "Office", "Often", "Only", "Other", "Over",
    "Page", "People", "Play", "Please", "Pointless", "Police", "Power", "Productivity", "Public",
    "Question",
    "Radio", "Real",
    "Same", "Service", "Several", "Sign", "Since", "Sniper", "Some", "South", "Special",
    "Stalemate", "State", "Steam", "Still", "Success", "Such", "Sunrise",
    "Time", "Title", "Today", "Together",
    "Very",
    "Watch", "Website", "Wedding", "Welcome", "Well", "While", "White", "Whole", "Woman", "Wood",
    "World", "Writer",
    "Year",
    "Zero",
    "North", "East", "West",
    "African", "American", "Arab", "Asian", "Australian",
    "Brazilian", "British",
    "Canadian", "Chinese",
    "Dutch",
    "Egyptian", "English", "European",
    "French",
    "German", "Greek",
    "Indian", "Iranian", "Iraqi", "Irish", "Islamic", "Israeli", "Italian",
    "Japanese",
    "Korean",
    "Latin",
    "Mexican",
    "Palestinian", "Polish",
    "Russian",
    "Scottish", "Spanish", "Swedish",
    "Turkish",
    "Ukrainian",
    "Vietnamese",
    "Welsh",
    "Academic", "Athletes", "Bureaucrat", "Cabinet", "Commons", "Conservative",
    "Constitution", "Creativity", "Customs", "Democracy", "Deputy", "Environment",
    "Geography", "Health", "History", "House", "Immigration",
    "Justice", "Liberal", "Ministry",
    "Opposition",
    "Parliament", "Partnership", "Poetry", "Prince", "Princess",
    "Producer", "Professor",
    "Republic",
    "Secretary", "Security", "Transparency", "Treasury",
    "Alamy", "Getty", "Shutterstock"] : List String).map String.data

/-- meetsMinLength of shared/matcher-core.js: multi-word phrases always pass;
single all-uppercase phrases need length at least 3; other single words need
length at least 4. -/
def meetsMinLength (phrase : Str) : Bool :=
  if phrase.contains ' ' then true
  else if !phrase.isEmpty && phrase.all isUpperAZ then decide (3 ≤ phrase.length)
  else decide (4 ≤ phrase.length)

/-- extractCandidates of shared/matcher-core.js. -/
def extractCandidates (t : Str) : List Str :=
  extractCandidatesGen meetsMinLength SKIP_WORDS t

/-- The candidate-confirmation and length sort of findMatches: candidates that
are in the entity set, in candidate order, then stable-sorted by length
descending. -/
def confirmedSorted (t : Str) (entitySet : List Str) : List Str :=
  List.insertionSort lenDescRel ((extractCandidates t).filter (fun c => entitySet.contains c))

/-- The acceptance loop of findMatches: for each confirmed phrase in order,
locate its first word-boundary occurrence, and accept it unless it overlaps an
already used range, is part of a larger capitalised phrase, or starts a
sentence. -/
def findLoop (t : Str) : List Str → List Match → List (Nat × Nat) → List Match
  | [], result, _ => result
  | name :: rest, result, used =>
    match findFirstWB t name with
    | none => findLoop t rest result used
    | some start =>
      let e := start + name.length
      let overlaps := used.any (fun r => rangesOverlapJS start e r.1 r.2)
      if !overlaps && !isPartOfLargerPhrase t start e && !isSentenceStart t start then
        findLoop t rest (result ++ [⟨name, start⟩]) (used ++ [(start, e)])
      else
        findLoop t rest result used

/-- findMatches of shared/matcher-core.js: normalise curly quotes, extract
candidates, confirm against the entity set, resolve longest-first, and sort
the accepted matches by position. -/
def findMatches (t : Str) (entitySet : List Str) : List Match :=
  let normalised := normaliseCurlyQuotes t
  List.insertionSort idxRel (findLoop normalised (confirmedSorted normalised entitySet) [] [])

/-- The acceptance loop of findMatchesInText: occurrences are already located;
accept unless overlapping or at sentence start (no part-of-larger-phrase or
skip-word checks). -/
def fmitLoop (t : Str) : List Match → List Match → List (Nat × Nat) → List Match
  | [], result, _ => result
  | m :: rest, result, used =>
    let start := m.index
    let e := start + m.text.length
    let overlaps := used.any (fun r => rangesOverlapJS start e r.1 r.2)
    if !overlaps && !isSentenceStart t start then
      fmitLoop t rest (result ++ [m]) (used ++ [(start, e)])
    else
      fmitLoop t rest result used

/-- findMatchesInText of shared/matcher-core.js: all word-boundary occurrences
of each known entity name (iterated as the keys of the entity map), sorted by
length descending, filtered by the overlap and sentence-start rules, then
sorted by position. -/
def findMatchesInText (t : Str) (knownEntities : List Str) : List Match :=
  let occs := knownEntities.foldl
    (fun acc name => acc ++ (findAllWB t name).map (fun i => Match.mk name i)) []
  List.insertionSort idxRel (fmitLoop t (List.insertionSort matchLenDescRel occs) [] [])

end Core

namespace EM

/-- SKIP_WORDS of lib/matcher.js (the server EntityMatcher): only pronouns,
determiners, day and month names. -/
def SKIP_WORDS : List Str :=
  (["The", "This", "That", "There", "Their", "They", "What", "When",
    "Where", "Which", "Who", "Why", "How",
    "He", "She", "His", "Her", "Him", "Its", "We", "Our", "You", "Your", "My",
    "Monday", "Tuesday", "Wednesday", "Thursday", "Friday", "Saturday", "Sunday",
    "January", "February", "March", "April", "May", "June",
    "July", "August", "September", "October", "November", "December"] : List String).map
    String.data

/-- meetsMinLength of lib/matcher.js: unlike the shared matcher-core rule,
all-uppercase single words need only length at least 2. -/
def meetsMinLength (phrase : Str) : Bool :=
  if phrase.contains ' ' then true
  else if !phrase.isEmpty && phrase.all isUpperAZ then decide (2 ≤ phrase.length)
  else decide (4 ≤ phrase.length)

/-- EntityMatcher.extractCandidates of lib/matcher.js: same four passes as the
shared core, with the smaller skip list and the laxer acronym length rule. -/
def extractCandidates (t : Str) : List Str :=
  extractCandidatesGen meetsMinLength SKIP_WORDS t

/-- A single-field record text entry pushed into the debug lists ({ text }). -/
structure TRec where
  text : Str
deriving DecidableEq, Repr

/-- The debugData object of EntityMatcher.findMatches. -/
structure DebugData where
  candidates : List Str
  unmatched : List Str
  overlapped : List TRec
  partOfLarger : List TRec
  sentenceStart : List TRec
deriving DecidableEq, Repr

/-- The candidate-confirmation loop of EntityMatcher.findMatches: entities
that are in the catalogue are collected; in debug mode the others are recorded
as unmatched. -/
def confirmLoop (entities : List Str) : List Str → List Str → Option DebugData →
    List Str × Option DebugData
  | [], ms, dbg => (ms, dbg)
  | c :: rest, ms, dbg =>
    if entities.contains c then
      confirmLoop entities rest (ms ++ [c]) dbg
    else
      match dbg with
      | some d => confirmLoop entities rest ms (some { d with unmatched := d.unmatched ++ [c] })
      | none => confirmLoop entities rest ms none

/-- The acceptance loop of EntityMatcher.findMatches (lib/matcher.js lines
137-174): locate each confirmed phrase, then test overlap, part-of-larger
phrase and sentence start in that order, recording the rejection reason in
debug mode.  Note that the buffer is NOT normalised here. -/
def findLoop (t : Str) : List Str → List Match → List (Nat × Nat) → Option DebugData →
    List Match × List (Nat × Nat) × Option DebugData
  | [], result, used, dbg => (result, used, dbg)
  | name :: rest, result, used, dbg =>
    match findFirstWB t name with
    | none => findLoop t rest result used dbg
    | some start =>
      let e := start + name.length
      let overlaps := used.any (fun r => rangesOverlapJS start e r.1 r.2)
      if overlaps then
        findLoop t rest result used
          (dbg.map (fun d => { d with overlapped := d.overlapped ++ [⟨name⟩] }))
      else if isPartOfLargerPhrase t start e then
        findLoop t rest result used
          (dbg.map (fun d => { d with partOfLarger := d.partOfLarger ++ [⟨name⟩] }))
      else if isSentenceStart t start then
        findLoop t rest result used
          (dbg.map (fun d => { d with sentenceStart := d.sentenceStart ++ [⟨name⟩] }))
      else
        findLoop t rest (result ++ [⟨name, start⟩]) (used ++ [(start, e)]) dbg

/-- EntityMatcher.findMatches of lib/matcher.js.  Returns the position-sorted
match list together with the attached debug data (the JS result._debug,
present exactly when debug is true).  The buffer is not curly-quote
normalised anywhere in this pipeline. -/
def findMatches (entities : List Str) (t : Str) (debug : Bool) :
    List Match × Option DebugData :=
  let candidates := extractCandidates t
  let dbg0 : Option DebugData := if debug then some ⟨candidates, [], [], [], []⟩ else none
  let confirmed := confirmLoop entities candidates [] dbg0
  let sorted := List.insertionSort lenDescRel confirmed.1
  let resolved := findLoop t sorted [] [] confirmed.2
  (List.insertionSort idxRel resolved.1, resolved.2.2)

/-- EntityMatcher.findMatchesInText of lib/matcher.js: identical to the shared
core version (all word-boundary occurrences, length-descending overlap
resolution, sentence-start suppression; no skip-word/length or part-of-larger
checks, no normalisation). -/
def findMatchesInText (t : Str) (knownEntities : List Str) : List Match :=
  let occs := knownEntities.foldl
    (fun acc name => acc ++ (findAllWB t name).map (fun i => Match.mk name i)) []
  List.insertionSort idxRel (Core.fmitLoop t (List.insertionSort matchLenDescRel occs) [] [])

end EM

/-! ### String utilities used by the injector (shared/matcher-core.js and
lib/injector.js) -/

/-- Substring test (JS String.prototype.includes). -/
def containsSub (hay pat : Str) : Bool :=
  (List.range (hay.length + 1)).any (fun i => pat.isPrefixOf (hay.drop i))

/-- Replace every occurrence of one character by a replacement string (each of
the four global single-character replaces of escapeHtml). -/
def replaceChar (t : Str) (c : Char) (r : Str) : Str :=
  (t.map (fun d => if d = c then r else [d])).flatten

/-- escapeHtml of lib/injector.js: the four sequential global replaces, in
source order (ampersand first). -/
def escapeHtml (t : Str) : Str :=
  replaceChar (replaceChar (replaceChar (replaceChar t '&' ("&amp;").data)
    '<' ("&lt;").data) '>' ("&gt;").data) '"' ("&quot;").data

/-- Characters that encodeURIComponent leaves unescaped. -/
def isUnreservedURI (c : Char) : Bool :=
  isAsciiLetterChar c || isDigitChar c || c = '-' || c = '_' || c = '.' ||
  c = '!' || c = '~' || c = '*' || c = apostC || c = '(' || c = ')'

/-- Uppercase hex digit of a value below 16. -/
def hexDigitChar (n : Nat) : Char :=
  if n < 10 then Char.ofNat (48 + n) else Char.ofNat (55 + n)

/-- UTF-8 bytes of a character (standard encoding by code point range). -/
def utf8BytesOf (c : Char) : List Nat :=
  let n := c.toNat
  if n < 128 then [n]
  else if n < 2048 then [192 + n / 64, 128 + n % 64]
  else if n < 65536 then [224 + n / 4096, 128 + (n / 64) % 64, 128 + n % 64]
  else [240 + n / 262144, 128 + (n / 4096) % 64, 128 + (n / 64) % 64, 128 + n % 64]

/-- Percent-encoding of one byte. -/
def percentByte (b : Nat) : Str := ['%', hexDigitChar (b / 16), hexDigitChar (b % 16)]

/-- JS encodeURIComponent. -/
def encodeURIComponentStr (s : Str) : Str :=
  (s.map (fun c =>
    if isUnreservedURI c then [c] else ((utf8BytesOf c).map percentByte).flatten)).flatten

/-- toWikiUrl of shared/matcher-core.js: spaces become underscores, then the
name is percent-encoded onto the Wikipedia base URL. -/
def toWikiUrl (entityName : Str) : Str :=
  ("https://en.wikipedia.org/wiki/").data ++
    encodeURIComponentStr (entityName.map (fun c => if c = ' ' then '_' else c))

/-- JS String.prototype.split(/\s+/): fields separated by maximal whitespace
runs; a leading or trailing run yields an empty field, and the empty string
splits to one empty field.  The steps argument bounds recursion (each step
consumes at least one character of the remainder). -/
def splitWSGo (s : Str) : Nat → List Str
  | 0 => [s.takeWhile (fun c => !isSpaceJS c)]
  | steps + 1 =>
    let word := s.takeWhile (fun c => !isSpaceJS c)
    let rest := s.dropWhile (fun c => !isSpaceJS c)
    match rest with
    | [] => [word]
    | _ => word :: splitWSGo (rest.dropWhile isSpaceJS) steps

/-- Split on whitespace runs, JS split(/\s+/) semantics. -/
def splitWSJS (s : Str) : List Str := splitWSGo s (s.length + 1)

/-- extractContext of shared/matcher-core.js: three words either side of the
match, with the match bracketed. -/
def extractContext (t : Str) (index matchLength : Nat) : Str :=
  let before := t.take index
  let after := t.drop (index + matchLength)
  let wordsBefore := List.intercalate ([' '])
    (let ws := splitWSJS (jsTrim before); ws.drop (ws.length - 3))
  let wordsAfter := List.intercalate ([' ']) ((splitWSJS (jsTrim after)).take 3)
  let matched := (t.drop index).take matchLength
  jsTrim (wordsBefore ++ (" [").data ++ matched ++ ("] ").data ++ wordsAfter)

namespace SkipRules

/-- SKIP_TAGS of shared/skip-rules.js, in source order. -/
def SKIP_TAGS : List Str :=
  (["SCRIPT", "STYLE", "NOSCRIPT",
    "A", "BUTTON", "INPUT", "TEXTAREA", "SELECT", "LABEL",
    "NAV", "HEADER", "FOOTER", "ASIDE",
    "H1", "H2", "H3", "H4", "H5", "H6",
    "CODE", "PRE", "KBD", "SAMP",
    "SVG", "MATH", "IFRAME", "OBJECT", "EMBED", "CANVAS",
    "HEAD", "TITLE", "META", "LINK",
    "FIGCAPTION",
    "LI",
    "TH", "TD"] : List String).map String.data

/-- SKIP_SELECTORS of shared/skip-rules.js. -/
def SKIP_SELECTORS : List Str :=
  (["[role=\"navigation\"]",
    "[role=\"banner\"]",
    "[role=\"contentinfo\"]",
    "[role=\"complementary\"]",
    "[role=\"search\"]",
    "[role=\"menu\"]",
    "[role=\"menubar\"]",
    "[role=\"toolbar\"]",
    "[role=\"button\"]",
    "[aria-hidden=\"true\"]",
    "[data-component=\"nav\"]",
    "[data-component=\"navigation\"]",
    "[data-component=\"header\"]",
    "[data-testid=\"promo\"]",
    "[data-testid=\"card\"]",
    "[data-commerce]",
    "[data-affiliate]"] : List String).map String.data

/-- SKIP_CLASS_PATTERNS of shared/skip-rules.js. -/
def SKIP_CLASS_PATTERNS : List Str :=
  (["menu", "nav-", "-nav",
    "headline", "title", "heading",
    "teaser", "dek", "lede", "leadin", "lead-in", "standfirst", "summary", "excerpt",
    "card", "promo", "tout", "featured", "spotlight",
    "credit", "caption", "byline", "author", "source",
    "widget", "embed", "video-", "-video", "interactive",
    "item-info", "item-image", "list-item",
    "rail", "sidebar", "related",
    "intro", "outro", "leadin", "g-intro", "g-leadin",
    "commerce", "shopping", "buyline", "affiliate", "product",
    "speakable", "schema", "ld-json"] : List String).map String.data

/-- hasSkipClassPattern of shared/skip-rules.js, on the class attribute string
already obtained from the host callback: an empty class string (JS falsy)
never matches; otherwise the lowercased string is tested for each pattern as a
substring. -/
def hasSkipClassPattern (className : Str) : Bool :=
  if className.isEmpty then false
  else
    let classLower := className.map Char.toLower
    SKIP_CLASS_PATTERNS.any (fun p => containsSub classLower p)

/-- The body of shouldSkipElement (the try block): the tag check, the selector
loop and the class-pattern check, sequenced over host callbacks that may fail
(the Except layer models JS exceptions thrown by the host while a check is
being evaluated). -/
def shouldSkipBody {α : Type} (getTag : α → Except String (Option Str))
    (closestFn : α → Str → Except String Bool)
    (getClassFn : Option (α → Except String Str)) (element : α) :
    Except String Bool := do
  let tagOpt ← getTag element
  let tagUp := tagOpt.map (fun tg => tg.map Char.toUpper)
  if (match tagUp with
      | some tg => SKIP_TAGS.contains tg
      | none => false) then
    return true
  for selector in SKIP_SELECTORS do
    if (← closestFn element selector) then
      return true
  if let some gc := getClassFn then
    let cls ← gc element
    if hasSkipClassPattern cls then
      return true
  return false

/-- shouldSkipElement of shared/skip-rules.js: the body wrapped in the
defensive try/catch, where any error while evaluating a check yields the
decision skip (true); no error reaches the caller. -/
def shouldSkipElement {α : Type} (getTag : α → Except String (Option Str))
    (closestFn : α → Str → Except String Bool)
    (getClassFn : Option (α → Except String Str)) (element : α) : Bool :=
  match shouldSkipBody getTag closestFn getClassFn element with
  | .ok b => b
  | .error _ => true

end SkipRules

/-! ### The content tree of the injector

The tree produced by node-html-parser (lib/injector.js) is modelled by HNode:
text nodes carry their raw text, element nodes carry the tag name, the class
attribute string, the set of SKIP_SELECTORS their closest() call matches (the
CSS selector engine belongs to the external parser library, so its answers are
node data here), and the child list. -/

mutual

inductive HNode where
  | text (content : Str)
  | elem (tagName : Str) (classAttr : Str) (selHits : List Str) (children : NodeList)
deriving Repr

/-- The childNodes array of an element. -/
inductive NodeList where
  | nil
  | cons (head : HNode) (tail : NodeList)
deriving Repr

end

/-- Builds a childNodes list from a Lean list (for concrete examples). -/
def nlist (l : List HNode) : NodeList := l.foldr NodeList.cons NodeList.nil

/-- closestAdapter of lib/injector.js for the modelled tree: which selectors a
node matches via ancestor-or-self search (a text node has no closest method;
the adapter returns false). -/
def closestAdapter (n : HNode) (sel : Str) : Bool :=
  match n with
  | .elem _ _ hits _ => hits.contains sel
  | .text _ => false

/-- getClassAdapter of lib/injector.js: the class attribute or the empty
string. -/
def getClassAdapter (n : HNode) : Str :=
  match n with
  | .elem _ cls _ _ => cls
  | .text _ => []

/-- The tagName accessor of the modelled tree (text nodes have none). -/
def getTagOf (n : HNode) : Option Str :=
  match n with
  | .elem tg _ _ _ => some tg
  | .text _ => none

/-- shouldSkipElement instantiated with the injector adapters over the
modelled tree; these adapters are total, so the Except layer never errors. -/
def shouldSkipH (n : HNode) : Bool :=
  SkipRules.shouldSkipElement (fun m => Except.ok (getTagOf m))
    (fun m sel => Except.ok (closestAdapter m sel))
    (some (fun m => Except.ok (getClassAdapter m))) n

/-- The classNames list of a node-html-parser element: the class attribute
split on whitespace. -/
def classNamesOf (attr : Str) : List Str :=
  (splitWSJS attr).filter (fun w => !w.isEmpty)

namespace Inj

/-- One matchLog entry of lib/injector.js. -/
structure LogEntry where
  text : Str
  wikiUrl : Str
  context : Str
deriving DecidableEq, Repr

/-- The debugInfo accumulator created by injectWikilinks (lib/injector.js
lines 55-63); note it includes a skippedSentenceStart list. -/
structure InjDebugInfo where
  allCandidates : List Str
  matched : List EM.TRec
  skippedNoMatch : List Str
  skippedOverlap : List EM.TRec
  skippedPartOfLarger : List EM.TRec
  skippedSentenceStart : List EM.TRec
  skippedAlreadyLinked : List EM.TRec
deriving DecidableEq, Repr

/-- The mutable state threaded through processElement: the page-scoped
linkedEntities ledger (a Set modelled as an insertion-ordered duplicate-free
list), the matchLog and the optional debugInfo. -/
structure PState where
  linked : List Str
  log : List LogEntry
  dbg : Option InjDebugInfo
deriving Repr

/-- ALLOW_INSIDE_ARTICLE of lib/injector.js. -/
def ALLOW_INSIDE_ARTICLE : List Str := [("LI").data, ("TH").data, ("TD").data]

/-- Folding one text node's matcher debug data into the page debugInfo
(lib/injector.js lines 150-157). -/
def mergeDebug (gi : InjDebugInfo) (d : EM.DebugData) : InjDebugInfo :=
  { gi with
    allCandidates := d.candidates.foldl insertIfNew gi.allCandidates
    skippedNoMatch := gi.skippedNoMatch ++ d.unmatched
    skippedOverlap := gi.skippedOverlap ++ d.overlapped
    skippedPartOfLarger := gi.skippedPartOfLarger ++ d.partOfLarger
    skippedSentenceStart := gi.skippedSentenceStart ++ d.sentenceStart }

/-- One iteration of the replacement loop over the matches of a text node
(lib/injector.js lines 166-201): an already-linked phrase is skipped and
recorded; otherwise the preceding text is escaped and appended, the link
markup is spliced, and the ledger, matchLog and debug record are updated. -/
def buildStep (t : Str) (acc : Str × Nat × PState) (m : Match) : Str × Nat × PState :=
  let (newHtml, lastIndex, st) := acc
  if st.linked.contains m.text then
    (newHtml, lastIndex,
      { st with dbg := st.dbg.map (fun gi =>
          { gi with skippedAlreadyLinked := gi.skippedAlreadyLinked ++ [⟨m.text⟩] }) })
  else
    let pre := if lastIndex < m.index then
        escapeHtml ((t.drop lastIndex).take (m.index - lastIndex)) else []
    let wikiUrl := toWikiUrl m.text
    let html2 := newHtml ++ pre ++ ("<a href=\"").data ++ wikiUrl ++
      ("\" class=\"wikilink\" title=\"").data ++ m.text ++ ("\">").data ++
      escapeHtml m.text ++ ("</a>").data
    let st2 : PState :=
      { linked := st.linked ++ [m.text]
        log := st.log ++ [⟨m.text, wikiUrl, extractContext t m.index m.text.length⟩]
        dbg := st.dbg.map (fun gi => { gi with matched := gi.matched ++ [⟨m.text⟩] }) }
    (html2, m.index + m.text.length, st2)

/-- The full replacement HTML for one text node plus the updated state: the
fold over the matches followed by the trailing text. -/
def buildNewHtml (t : Str) (ms : List Match) (st : PState) : Str × PState :=
  let r := ms.foldl (buildStep t) (([], 0, st))
  (r.1 ++ (if r.2.1 < t.length then escapeHtml (t.drop r.2.1) else []), r.2.2)

/-- Processing of one text node (lib/injector.js lines 133-212): short text is
ignored; in two-phase mode the pre-discovered entities are located with
findMatchesInText, otherwise the full EntityMatcher runs and its debug data is
folded into the page debugInfo; then the replacement loop runs and the node
text is replaced when it changed. -/
def handleTextNode (entities : List Str) (knownEntities : Option (List Str))
    (debug : Bool) (s : Str) (st : PState) : HNode × PState :=
  if (jsTrim s).length < 3 then (HNode.text s, st)
  else
    let step1 : List Match × PState :=
      match knownEntities with
      | some ke => (EM.findMatchesInText s ke, st)
      | none =>
        let r := EM.findMatches entities s debug
        let st1 := if debug then
            match r.2, st.dbg with
            | some d, some gi => { st with dbg := some (mergeDebug gi d) }
            | _, _ => st
          else st
        (r.1, st1)
    if step1.1.isEmpty then (HNode.text s, step1.2)
    else
      let r2 := buildNewHtml s step1.1 step1.2
      (if r2.1 != escapeHtml s then HNode.text r2.1 else HNode.text s, r2.2)

mutual

/-- processElement of lib/injector.js over the modelled tree.  A non-root
element is first tested against the shared skip rules (with the LI/TH/TD
exemption inside the article container); elements already marked wikilink are
left alone; otherwise the children are processed with the inside-link flag
updated for anchor tags. -/
def processElement (entities : List Str) (knownEntities : Option (List Str))
    (debug : Bool) (insideLink : Bool) (isRoot : Bool) (insideArticle : Bool) :
    HNode → PState → HNode × PState
  | HNode.text s, st => (HNode.text s, st)
  | HNode.elem tg cls hits children, st =>
    if !isRoot &&
        (!(insideArticle && ALLOW_INSIDE_ARTICLE.contains (tg.map Char.toUpper)) &&
          shouldSkipH (HNode.elem tg cls hits children)) then
      (HNode.elem tg cls hits children, st)
    else if (classNamesOf cls).contains (("wikilink").data) then
      (HNode.elem tg cls hits children, st)
    else
      let nowInsideLink := insideLink || (tg.map Char.toUpper) == ("A").data
      let r := processChildren entities knownEntities debug nowInsideLink insideArticle
        children st
      (HNode.elem tg cls hits r.1, r.2)

/-- The child loop of processElement: text nodes inside a link are inert,
other text nodes are handled by handleTextNode, and element children recurse
with isRoot cleared. -/
def processChildren (entities : List Str) (knownEntities : Option (List Str))
    (debug : Bool) (nowInsideLink : Bool) (insideArticle : Bool) :
    NodeList → PState → NodeList × PState
  | NodeList.nil, st => (NodeList.nil, st)
  | NodeList.cons (HNode.text s) rest, st =>
    let r1 := if nowInsideLink then (HNode.text s, st)
      else handleTextNode entities knownEntities debug s st
    let r2 := processChildren entities knownEntities debug nowInsideLink insideArticle
      rest r1.2
    (NodeList.cons r1.1 r2.1, r2.2)
  | NodeList.cons (HNode.elem a b c d) rest, st =>
    let r1 := processElement entities knownEntities debug nowInsideLink false insideArticle
      (HNode.elem a b c d) st
    let r2 := processChildren entities knownEntities debug nowInsideLink insideArticle
      rest r1.2
    (NodeList.cons r1.1 r2.1, r2.2)

end

/-- The empty debugInfo created at the start of injectWikilinks. -/
def emptyDebugInfo : InjDebugInfo := ⟨[], [], [], [], [], [], []⟩

/-- The JS spread [...new Set(arr)]: first-occurrence deduplication. -/
def dedupStrs (l : List Str) : List Str := l.foldl insertIfNew []

/-- The debugInfo object literal returned by injectWikilinks (lib/injector.js
lines 83-90), modelled as the association list of its JS property names.  The
source builds this object WITHOUT the skippedSentenceStart list it collected. -/
def debugReportOf (gi : InjDebugInfo) : List (String × List Str) :=
  [(("allCandidates" : String), gi.allCandidates),
   (("matched" : String), gi.matched.map (fun r => r.text)),
   (("skippedNoMatch" : String), dedupStrs gi.skippedNoMatch),
   (("skippedOverlap" : String), gi.skippedOverlap.map (fun r => r.text)),
   (("skippedPartOfLarger" : String), gi.skippedPartOfLarger.map (fun r => r.text)),
   (("skippedAlreadyLinked" : String), gi.skippedAlreadyLinked.map (fun r => r.text))]

/-- The outcome of injectWikilinks: the processed content elements (the HTML
string of the source is the serialisation of these), the stats.linked count,
the matchLog, and the debug report when requested.  Parsing the page and
resolving the article selector belong to the external node-html-parser
library, so the selected content elements are the input here. -/
structure InjResult where
  elements : List HNode
  linkedCount : Nat
  matchLog : List LogEntry
  debugReport : Option (List (String × List Str))
deriving Repr

/-- injectWikilinks of lib/injector.js: fresh page-scoped ledger, log and
debugInfo, then processElement over each content element with
insideLink=false, isRoot=true, insideArticle=true. -/
def injectWikilinks (entities : List Str) (contentElements : List HNode)
    (debug : Bool) (knownEntities : Option (List Str)) : InjResult :=
  let st0 : PState := ⟨[], [], if debug then some emptyDebugInfo else none⟩
  let r := contentElements.foldl
    (fun (acc : List HNode × PState) el =>
      let p := processElement entities knownEntities debug false true true el acc.2
      (acc.1 ++ [p.1], p.2))
    (([], st0))
  { elements := r.1
    linkedCount := r.2.linked.length
    matchLog := r.2.log
    debugReport :=
      if debug then
        match r.2.dbg with
        | some gi => some (debugReportOf gi)
        | none => none
      else none }

end Inj

namespace Ext

/-- A fragment of the DocumentFragment built by replaceTextNode of
extension/src/content.js: plain text or a wikilink anchor. -/
inductive Frag where
  | txt (s : Str)
  | link (name url : Str)
deriving DecidableEq, Repr

/-- One iteration of the replaceTextNode loop: already-linked phrases are
skipped; otherwise the preceding text fragment and the link are appended and
the ledger grows. -/
def replaceStep (text : Str) (acc : List Frag × Nat × Nat × List Str) (m : Match) :
    List Frag × Nat × Nat × List Str :=
  let (frags, lastIndex, count, linked) := acc
  if linked.contains m.text then acc
  else
    let pre := if lastIndex < m.index then
        [Frag.txt ((text.drop lastIndex).take (m.index - lastIndex))] else []
    (frags ++ pre ++ [Frag.link m.text (toWikiUrl m.text)],
      m.index + m.text.length, count + 1, linked ++ [m.text])

/-- replaceTextNode of extension/src/content.js: builds the fragment list, the
number of links created and the updated ledger; when no link was created the
node is left untouched (count 0, no fragments). -/
def replaceTextNode (text : Str) (ms : List Match) (linked : List Str) :
    List Frag × Nat × List Str :=
  let r := ms.foldl (replaceStep text) (([], 0, 0, linked))
  if r.2.2.1 = 0 then ([], 0, r.2.2.2)
  else
    (r.1 ++ (if r.2.1 < text.length then [Frag.txt (text.drop r.2.1)] else []),
      r.2.2.1, r.2.2.2)

end Ext

/-! ### Invariants of the overlap-resolution loops -/

/-- End of the character range of a match. -/
def matchEnd (m : Match) : Nat := m.index + m.text.length

/-- Two matches overlap when their [index, index + length) character ranges
intersect. -/
def matchOverlap (a b : Match) : Prop :=
  max a.index b.index < min (matchEnd a) (matchEnd b)

theorem matchOverlap_symm {a b : Match} (h : matchOverlap a b) : matchOverlap b a := by
  simpa [matchOverlap, Nat.max_comm, Nat.min_comm] using h

theorem rangesOverlapJS_false {a b c d : Nat} (h : rangesOverlapJS a b c d = false) :
    ¬ max a c < min b d := by
  intro hov
  simp only [rangesOverlapJS] at h
  simp only [max_lt_iff, lt_min_iff] at hov
  simp only [Bool.or_eq_false_iff, Bool.and_eq_false_iff, decide_eq_false_iff_not,
    Nat.not_le, Nat.not_lt] at h
  omega

/-- When the JS overlap scan over the used ranges comes back false and the
used ranges are exactly those of the accepted matches, the new range overlaps
none of them. -/
theorem accepted_no_overlap {start len : Nat} {name : Str} {result : List Match}
    {used : List (Nat × Nat)}
    (hlen : len = name.length)
    (hused : used = result.map (fun m => (m.index, matchEnd m)))
    (hov : (used.any fun r => rangesOverlapJS start (start + len) r.1 r.2) = false) :
    ∀ a ∈ result, ¬ matchOverlap a ⟨name, start⟩ := by
  intro a ha hcontra
  have hmem : ((a.index, matchEnd a) : Nat × Nat) ∈ used := by
    subst hused
    exact List.mem_map.mpr ⟨a, ha, rfl⟩
  have hfalse : rangesOverlapJS start (start + len) a.index (matchEnd a) = false := by
    have := List.any_eq_false.mp hov _ hmem
    simpa using this
  apply rangesOverlapJS_false hfalse
  have : matchEnd (⟨name, start⟩ : Match) = start + len := by
    simp [matchEnd, hlen]
  calc max start a.index = max a.index start := Nat.max_comm _ _
    _ < min (matchEnd a) (start + len) := by
        simpa [matchOverlap, this] using hcontra
    _ = min (start + len) (matchEnd a) := Nat.min_comm _ _

/-- Invariant of the findMatches acceptance loop: starting from a result list
whose matches are pairwise non-overlapping and none of which is at sentence
start, with the used ranges in lockstep, the loop preserves both properties. -/
theorem Core.findLoop_spec (t : Str) :
    ∀ (names : List Str) (result : List Match) (used : List (Nat × Nat)),
      used = result.map (fun m => (m.index, matchEnd m)) →
      result.Pairwise (fun a b => ¬ matchOverlap a b) →
      (∀ m ∈ result, isSentenceStart t m.index = false) →
      (Core.findLoop t names result used).Pairwise (fun a b => ¬ matchOverlap a b) ∧
        ∀ m ∈ Core.findLoop t names result used, isSentenceStart t m.index = false
  | [], result, used, _, hpw, hss => by
    simpa [Core.findLoop] using ⟨hpw, hss⟩
  | name :: rest, result, used, hused, hpw, hss => by
    rw [Core.findLoop]
    cases hfw : findFirstWB t name with
    | none => exact Core.findLoop_spec t rest result used hused hpw hss
    | some start =>
      simp only
      by_cases hc : (!(used.any fun r => rangesOverlapJS start (start + name.length) r.1 r.2) &&
          !isPartOfLargerPhrase t start (start + name.length) &&
          !isSentenceStart t start) = true
      · rw [if_pos hc]
        simp only [Bool.and_eq_true, Bool.not_eq_true'] at hc
        refine Core.findLoop_spec t rest _ _ ?_ ?_ ?_
        · simp [hused, matchEnd]
        · rw [List.pairwise_append]
          refine ⟨hpw, by simp, ?_⟩
          intro a ha b hb
          simp only [List.mem_singleton] at hb
          subst hb
          exact accepted_no_overlap rfl hused hc.1.1 a ha
        · intro m hm
          rcases List.mem_append.mp hm with h | h
          · exact hss m h
          · simp only [List.mem_singleton] at h
            subst h
            exact hc.2
      · rw [if_neg hc]
        exact Core.findLoop_spec t rest result used hused hpw hss

/-- Invariant of the findMatchesInText acceptance loop: same statement for the
pre-located occurrence list. -/
theorem Core.fmitLoop_spec (t : Str) :
    ∀ (occs : List Match) (result : List Match) (used : List (Nat × Nat)),
      used = result.map (fun m => (m.index, matchEnd m)) →
      result.Pairwise (fun a b => ¬ matchOverlap a b) →
      (∀ m ∈ result, isSentenceStart t m.index = false) →
      (Core.fmitLoop t occs result used).Pairwise (fun a b => ¬ matchOverlap a b) ∧
        ∀ m ∈ Core.fmitLoop t occs result used, isSentenceStart t m.index = false
  | [], result, used, _, hpw, hss => by
    simpa [Core.fmitLoop] using ⟨hpw, hss⟩
  | m :: rest, result, used, hused, hpw, hss => by
    rw [Core.fmitLoop]
    by_cases hc : (!(used.any fun r => rangesOverlapJS m.index (m.index + m.text.length) r.1 r.2) &&
        !isSentenceStart t m.index) = true
    · rw [if_pos hc]
      simp only [Bool.and_eq_true, Bool.not_eq_true'] at hc
      refine Core.fmitLoop_spec t rest _ _ ?_ ?_ ?_
      · simp [hused, matchEnd]
      · rw [List.pairwise_append]
        refine ⟨hpw, by simp, ?_⟩
        intro a ha b hb
        simp only [List.mem_singleton] at hb
        subst hb
        exact accepted_no_overlap rfl hused hc.1 a ha
      · intro x hx
        rcases List.mem_append.mp hx with h | h
        · exact hss x h
        · simp only [List.mem_singleton] at h
          subst h
          exact hc.2
    · rw [if_neg hc]
      exact Core.fmitLoop_spec t rest result used hused hpw hss

/-- Pairwise non-overlap survives the final stable sort. -/
theorem pairwise_nonoverlap_insertionSort {l : List Match}
    (h : l.Pairwise (fun a b => ¬ matchOverlap a b)) :
    (List.insertionSort idxRel l).Pairwise (fun a b => ¬ matchOverlap a b) := by
  refine (List.Perm.pairwise_iff ?_ (List.perm_insertionSort idxRel l)).mpr h
  intro x y hxy hov
  exact hxy (matchOverlap_symm hov)

/-- The final sort produces a list ordered by start index. -/
theorem sorted_idx_insertionSort (l : List Match) :
    (List.insertionSort idxRel l).Sorted (fun a b => a.index ≤ b.index) := by
  exact List.sorted_insertionSort idxRel l

/-- C1: for every text buffer and entity set, the match list returned by
findMatches, and by findMatchesInText in two-phase mode, contains no two
matches with intersecting [startIndex, startIndex + text.length) ranges, and
is sorted by startIndex ascending. -/
theorem C1_resolver_nonoverlap_sorted :
    ∀ (t : Str) (entitySet knownEntities : List Str),
      ((Core.findMatches t entitySet).Pairwise (fun a b => ¬ matchOverlap a b) ∧
        List.Sorted (fun a b : Match => a.index ≤ b.index) (Core.findMatches t entitySet)) ∧
      (Core.findMatchesInText t knownEntities).Pairwise (fun a b => ¬ matchOverlap a b) ∧
        List.Sorted (fun a b : Match => a.index ≤ b.index)
          (Core.findMatchesInText t knownEntities) := by
  intro t es ke
  refine ⟨⟨?_, ?_⟩, ?_, ?_⟩
  · unfold Core.findMatches
    exact pairwise_nonoverlap_insertionSort
      ((Core.findLoop_spec _ _ [] [] rfl (by simp) (by simp)).1)
  · unfold Core.findMatches
    exact sorted_idx_insertionSort _
  · unfold Core.findMatchesInText
    exact pairwise_nonoverlap_insertionSort
      ((Core.fmitLoop_spec _ _ [] [] rfl (by simp) (by simp)).1)
  · unfold Core.findMatchesInText
    exact sorted_idx_insertionSort _

/-- C3: confirmed phrases are tried in order of decreasing string length (the
list handed to the acceptance loop is sorted length-descending), and on the
spec example - catalogue containing both New York and New York City, buffer
mentioning New York City mid-sentence - only the New York City match is
returned. -/
theorem C3_longest_match_precedence :
    (∀ (t : Str) (es : List Str), List.Sorted lenDescRel (Core.confirmedSorted t es)) ∧
    Core.findMatches ("He visited New York City yesterday.").data
        [("New York").data, ("New York City").data] =
      [⟨("New York City").data, 11⟩] := by
  constructor
  · intro t es
    unfold Core.confirmedSorted
    exact List.sorted_insertionSort lenDescRel _
  · decide

/-- C7: an accepted match is never at sentence start - every match returned
by findMatches fails the isSentenceStart test on the normalised buffer - and
the spec example (both catalogued names open a sentence) yields no matches. -/
theorem C7_sentence_start_suppression :
    (∀ (t : Str) (es : List Str),
      (Core.findMatches t es).all
        (fun m => !isSentenceStart (normaliseCurlyQuotes t) m.index) = true) ∧
    Core.findMatches ("Google announced earnings. Barack Obama spoke.").data
        [("Google").data, ("Barack Obama").data] = [] := by
  constructor
  · intro t es
    rw [List.all_eq_true]
    intro m hm
    unfold Core.findMatches at hm
    have hmem := (List.mem_insertionSort idxRel).mp hm
    have := (Core.findLoop_spec (normaliseCurlyQuotes t) _ [] [] rfl (by simp) (by simp)).2
      m hmem
    simp [this]
  · decide

/-- Curly-quote normalisation is idempotent: a normalised buffer is unchanged
by another normalisation pass. -/
theorem normalise_idem (t : Str) :
    normaliseCurlyQuotes (normaliseCurlyQuotes t) = normaliseCurlyQuotes t := by
  unfold normaliseCurlyQuotes
  rw [List.map_map]
  have hfun : ((fun c => if c = curlyOpenQ || c = curlyCloseQ then apostC else c) ∘
      (fun c => if c = curlyOpenQ || c = curlyCloseQ then apostC else c)) =
      (fun c : Char => if c = curlyOpenQ || c = curlyCloseQ then apostC else c) := by
    funext c
    simp only [Function.comp_apply]
    by_cases h1 : c = curlyOpenQ
    · subst h1
      decide
    · by_cases h2 : c = curlyCloseQ
      · subst h2
        decide
      · simp [h1, h2]
  rw [hfun]

/-- C4 counterexample: the server pipeline (lib/matcher.js) accepts the
two-letter all-uppercase phrase UK - meetsMinLength there requires only
length 2, and the full EntityMatcher.findMatches pipeline links UK mid
sentence - contradicting the claim that UK is rejected regardless of
catalogue membership in both the server and the extension pipeline. -/
theorem C4_counterexample :
    EM.meetsMinLength ("UK").data = true ∧
    (EM.findMatches [("UK").data] ("Exports from the UK fell sharply.").data false).1 =
      [⟨("UK").data, 17⟩] := by
  constructor
  · decide
  · decide

/-- C4 amended: the shape rules of the claim hold for the shared matcher-core
filter (multi-word always passes, all-uppercase needs length at least 3, other
single words need length at least 4), and that filter rejects UK and accepts
FBI; but the server lib/matcher.js filter accepts all-uppercase words of
length 2 and up, so UK passes the length filter in the server pipeline while
the matcher-core pipeline returns no match for the same buffer. -/
theorem C4_min_length_rules :
    (∀ p : Str, p.contains ' ' = true →
      Core.meetsMinLength p = true ∧ EM.meetsMinLength p = true) ∧
    (∀ p : Str, p ≠ [] → p.all isUpperAZ = true → p.contains ' ' = false →
      (Core.meetsMinLength p = true ↔ 3 ≤ p.length) ∧
      (EM.meetsMinLength p = true ↔ 2 ≤ p.length)) ∧
    (∀ p : Str, p.contains ' ' = false → (!p.isEmpty && p.all isUpperAZ) = false →
      (Core.meetsMinLength p = true ↔ 4 ≤ p.length) ∧
      (EM.meetsMinLength p = true ↔ 4 ≤ p.length)) ∧
    Core.meetsMinLength ("UK").data = false ∧
    Core.meetsMinLength ("FBI").data = true ∧
    EM.meetsMinLength ("FBI").data = true ∧
    Core.findMatches ("Exports from the UK fell sharply.").data [("UK").data] = [] := by
  refine ⟨?_, ?_, ?_, by decide, by decide, by decide, by decide⟩
  · intro p hcontains
    constructor
    · unfold Core.meetsMinLength
      simp only [hcontains]
      simp
    · unfold EM.meetsMinLength
      simp only [hcontains]
      simp
  · intro p hne hall hcontains
    have hemp : p.isEmpty = false := by simpa [List.isEmpty_iff] using hne
    constructor
    · unfold Core.meetsMinLength
      simp only [hcontains, hemp, hall]
      simp
    · unfold EM.meetsMinLength
      simp only [hcontains, hemp, hall]
      simp
  · intro p hcontains hshape
    constructor
    · unfold Core.meetsMinLength
      simp only [hcontains, hshape]
      simp
    · unfold EM.meetsMinLength
      simp only [hcontains, hshape]
      simp

/-- Witness for C4_min_length_rules at concrete phrases of each shape. -/
theorem C4_min_length_rules_witness :
    (Core.meetsMinLength ("New York").data = true ∧
      EM.meetsMinLength ("New York").data = true) ∧
    ((Core.meetsMinLength ("FBI").data = true ↔ 3 ≤ ("FBI").data.length) ∧
      (EM.meetsMinLength ("FBI").data = true ↔ 2 ≤ ("FBI").data.length)) ∧
    ((Core.meetsMinLength ("Gaza").data = true ↔ 4 ≤ ("Gaza").data.length) ∧
      (EM.meetsMinLength ("Gaza").data = true ↔ 4 ≤ ("Gaza").data.length)) :=
  ⟨C4_min_length_rules.1 _ (by decide),
   C4_min_length_rules.2.1 _ (by decide) (by decide) (by decide),
   C4_min_length_rules.2.2.1 _ (by decide) (by decide)⟩

/-- The catalogue title O'Brien spelt with a straight apostrophe. -/
def obrienName : Str := ['O', apostC, 'B', 'r', 'i', 'e', 'n']

/-- A buffer spelling the same name with a curly right single quote U+2019. -/
def curlyBrienText : Str := ("He praised O").data ++ [curlyCloseQ] ++ ("Brien warmly.").data

/-- C5 counterexample: the EntityMatcher entry points of lib/matcher.js do not
normalise curly quotes - a buffer spelling O'Brien with a curly apostrophe
matches nothing against the straight-quoted catalogue title through
EntityMatcher.findMatches or findMatchesInText, while the shared matcher-core
findMatches (which does normalise) returns the match. -/
theorem C5_counterexample :
    (EM.findMatches [obrienName] curlyBrienText false).1 = [] ∧
    EM.findMatchesInText curlyBrienText [obrienName] = [] ∧
    Core.findMatches curlyBrienText [obrienName] = [⟨obrienName, 11⟩] := by
  refine ⟨by decide, by decide, by decide⟩

/-- C5 amended: only the shared matcher-core findMatches normalises curly
single quotes before matching; for that entry point matching is invariant
under pre-normalising the buffer, and a curly-quoted buffer matches the
straight-quoted catalogue title there. -/
theorem C5_curly_quote_normalisation :
    (∀ (t : Str) (es : List Str),
      Core.findMatches t es = Core.findMatches (normaliseCurlyQuotes t) es) ∧
    Core.findMatches curlyBrienText [obrienName] = [⟨obrienName, 11⟩] := by
  constructor
  · intro t es
    unfold Core.findMatches
    rw [normalise_idem]
  · decide

/-- C6: the two-phase locator findMatchesInText applies overlap resolution and
the sentence-start suppression but neither the skip-word/length filter nor the
part-of-larger-phrase check: Forum, flanked by the capitalised word Economic
across one space, is matched in phase 2 while the full single-phase resolver
rejects the same occurrence; the skip-listed word The is likewise matched in
phase 2; and every phase-2 result list passes the sentence-start and
non-overlap checks. -/
theorem C6_two_phase_locator :
    EM.findMatchesInText ("He spoke at the World Economic Forum today.").data
        [("Forum").data] = [⟨("Forum").data, 31⟩] ∧
    (EM.findMatches [("Forum").data]
        ("He spoke at the World Economic Forum today.").data false).1 = [] ∧
    EM.findMatchesInText ("He read The Hobbit.").data [("The").data] =
      [⟨("The").data, 8⟩] ∧
    (∀ (t : Str) (ke : List Str),
      (EM.findMatchesInText t ke).all (fun m => !isSentenceStart t m.index) = true ∧
      (EM.findMatchesInText t ke).Pairwise (fun a b => ¬ matchOverlap a b)) := by
  refine ⟨by decide, by decide, by decide, ?_⟩
  intro t ke
  constructor
  · rw [List.all_eq_true]
    intro m hm
    unfold EM.findMatchesInText at hm
    have hmem := (List.mem_insertionSort idxRel).mp hm
    have := (Core.fmitLoop_spec t _ [] [] rfl (by simp) (by simp)).2 m hmem
    simp [this]
  · unfold EM.findMatchesInText
    exact pairwise_nonoverlap_insertionSort
      ((Core.fmitLoop_spec _ _ [] [] rfl (by simp) (by simp)).1)

/-- C8: the structural skip classifier is total over arbitrary host callbacks:
whenever evaluating its tag/selector/class checks raises an error the decision
is skip (true), and a normally computed decision is returned unchanged - no
error ever reaches the caller. -/
theorem C8_skip_error_defaults_to_skip :
    ∀ (α : Type) (getTag : α → Except String (Option Str))
      (closestFn : α → Str → Except String Bool)
      (getClassFn : Option (α → Except String Str)) (e : α),
      (∀ err, SkipRules.shouldSkipBody getTag closestFn getClassFn e = Except.error err →
        SkipRules.shouldSkipElement getTag closestFn getClassFn e = true) ∧
      (∀ b, SkipRules.shouldSkipBody getTag closestFn getClassFn e = Except.ok b →
        SkipRules.shouldSkipElement getTag closestFn getClassFn e = b) := by
  intro α gt cf gc e
  constructor
  · intro err h
    unfold SkipRules.shouldSkipElement
    rw [h]
  · intro b h
    unfold SkipRules.shouldSkipElement
    rw [h]

/-- Witness for C8 at a concrete failing host: a getTag callback that throws
makes the classifier return skip. -/
theorem C8_skip_error_defaults_to_skip_witness :
    SkipRules.shouldSkipBody (fun _ : Unit => (Except.error ("boom") : Except String (Option Str)))
      (fun _ _ => Except.ok false) none () = Except.error ("boom") ∧
    SkipRules.shouldSkipElement (fun _ : Unit => (Except.error ("boom") : Except String (Option Str)))
      (fun _ _ => Except.ok false) none () = true :=
  ⟨rfl,
   (C8_skip_error_defaults_to_skip Unit _ _ _ ()).1 ("boom") rfl⟩

/-! ### Diagnostics never change matching outcomes -/

/-- The confirmation loop's match list is the catalogue filter of the
candidates, independently of the debug accumulator. -/
theorem EM.confirmLoop_fst (entities : List Str) :
    ∀ (cs ms : List Str) (d : Option EM.DebugData),
      (EM.confirmLoop entities cs ms d).1 = ms ++ cs.filter (fun c => entities.contains c)
  | [], ms, d => by simp [EM.confirmLoop]
  | c :: rest, ms, d => by
    simp only [EM.confirmLoop]
    cases h : entities.contains c with
    | true =>
      simp only [h, if_true]
      rw [EM.confirmLoop_fst entities rest (ms ++ [c]) d]
      have hm : c ∈ entities := by simpa using h
      simp [List.filter_cons, hm]
    | false =>
      simp only [h, Bool.false_eq_true, if_false]
      have hm : c ∉ entities := by simpa using h
      cases d with
      | some d0 =>
        rw [EM.confirmLoop_fst entities rest ms _]
        simp [List.filter_cons, hm]
      | none =>
        rw [EM.confirmLoop_fst entities rest ms none]
        simp [List.filter_cons, hm]

/-- The acceptance loop's match list and used ranges do not depend on the
debug accumulator. -/
theorem EM.findLoop_ru (t : Str) :
    ∀ (ns : List Str) (res : List Match) (used : List (Nat × Nat))
      (d1 d2 : Option EM.DebugData),
      (EM.findLoop t ns res used d1).1 = (EM.findLoop t ns res used d2).1 ∧
      (EM.findLoop t ns res used d1).2.1 = (EM.findLoop t ns res used d2).2.1
  | [], res, used, d1, d2 => ⟨rfl, rfl⟩
  | name :: rest, res, used, d1, d2 => by
    simp only [EM.findLoop]
    cases hfw : findFirstWB t name with
    | none => exact EM.findLoop_ru t rest res used d1 d2
    | some start =>
      by_cases hov : (used.any fun r =>
          rangesOverlapJS start (start + name.length) r.1 r.2) = true
      · simp only [hov, if_true]
        exact EM.findLoop_ru t rest res used _ _
      · simp only [hov, if_false, Bool.false_eq_true]
        by_cases hpl : isPartOfLargerPhrase t start (start + name.length) = true
        · simp only [hpl, if_true]
          exact EM.findLoop_ru t rest res used _ _
        · simp only [hpl, if_false, Bool.false_eq_true]
          by_cases hses : isSentenceStart t start = true
          · simp only [hses, if_true]
            exact EM.findLoop_ru t rest res used _ _
          · simp only [hses, if_false, Bool.false_eq_true]
            exact EM.findLoop_ru t rest _ _ d1 d2

/-- EntityMatcher.findMatches returns the same match list with diagnostics on
as off. -/
theorem EM.findMatches_fst (es : List Str) (t : Str) (d : Bool) :
    (EM.findMatches es t d).1 = (EM.findMatches es t false).1 := by
  unfold EM.findMatches
  simp only
  rw [EM.confirmLoop_fst, EM.confirmLoop_fst]
  exact congrArg (List.insertionSort idxRel)
    (EM.findLoop_ru t _ [] [] _ _).1

/-- The replacement fold produces the same HTML, resume index, ledger and log
for two states agreeing on ledger and log (they may differ in debug data). -/
theorem Inj.buildFold_inv (t : Str) :
    ∀ (ms : List Match) (html : Str) (li : Nat) (st1 st2 : Inj.PState),
      st1.linked = st2.linked → st1.log = st2.log →
      (ms.foldl (Inj.buildStep t) ((html, li, st1))).1 =
        (ms.foldl (Inj.buildStep t) ((html, li, st2))).1 ∧
      (ms.foldl (Inj.buildStep t) ((html, li, st1))).2.1 =
        (ms.foldl (Inj.buildStep t) ((html, li, st2))).2.1 ∧
      (ms.foldl (Inj.buildStep t) ((html, li, st1))).2.2.linked =
        (ms.foldl (Inj.buildStep t) ((html, li, st2))).2.2.linked ∧
      (ms.foldl (Inj.buildStep t) ((html, li, st1))).2.2.log =
        (ms.foldl (Inj.buildStep t) ((html, li, st2))).2.2.log
  | [], html, li, st1, st2, hl, hg => ⟨rfl, rfl, hl, hg⟩
  | m :: ms, html, li, st1, st2, hl, hg => by
    simp only [List.foldl_cons]
    unfold Inj.buildStep
    simp only
    by_cases hc : st1.linked.contains m.text = true
    · have hc2 : st2.linked.contains m.text = true := by rw [← hl]; exact hc
      simp only [hc, hc2, if_true]
      exact Inj.buildFold_inv t ms html li _ _ hl hg
    · have hc2 : st2.linked.contains m.text = false := by
        rw [← hl]; exact Bool.eq_false_iff.mpr hc
      simp only [hc, hc2, Bool.false_eq_true, if_false, hl, hg]
      exact Inj.buildFold_inv t ms _ _ _ _ (by simp [hl]) (by simp [hg])

/-- buildNewHtml with equal ledger and log yields equal HTML, ledger and log. -/
theorem Inj.buildNewHtml_inv (t : Str) (ms : List Match) (st1 st2 : Inj.PState)
    (hl : st1.linked = st2.linked) (hg : st1.log = st2.log) :
    (Inj.buildNewHtml t ms st1).1 = (Inj.buildNewHtml t ms st2).1 ∧
    (Inj.buildNewHtml t ms st1).2.linked = (Inj.buildNewHtml t ms st2).2.linked ∧
    (Inj.buildNewHtml t ms st1).2.log = (Inj.buildNewHtml t ms st2).2.log := by
  unfold Inj.buildNewHtml
  dsimp only
  have h := Inj.buildFold_inv t ms [] 0 st1 st2 hl hg
  exact ⟨by rw [h.1, h.2.1], h.2.2.1, h.2.2.2⟩

/-- Folding matcher debug data into the page state changes neither the ledger
nor the log. -/
theorem Inj.mergeState_fields (debug : Bool) (r2 : Option EM.DebugData) (st : Inj.PState) :
    (if debug then
        match r2, st.dbg with
        | some d, some gi => { st with dbg := some (Inj.mergeDebug gi d) }
        | _, _ => st
      else st).linked = st.linked ∧
    (if debug then
        match r2, st.dbg with
        | some d, some gi => { st with dbg := some (Inj.mergeDebug gi d) }
        | _, _ => st
      else st).log = st.log := by
  by_cases h : debug = true
  · cases r2 <;> cases hd : st.dbg <;> simp [h, hd]
  · simp only [Bool.not_eq_true] at h
    simp [h]

/-- handleTextNode with diagnostics on or off, from states agreeing on ledger
and log, produces the same node, ledger and log. -/
theorem Inj.handleTextNode_inv (ents : List Str) (ke : Option (List Str)) (d1 d2 : Bool)
    (s : Str) (st1 st2 : Inj.PState)
    (hl : st1.linked = st2.linked) (hg : st1.log = st2.log) :
    (Inj.handleTextNode ents ke d1 s st1).1 = (Inj.handleTextNode ents ke d2 s st2).1 ∧
    (Inj.handleTextNode ents ke d1 s st1).2.linked =
      (Inj.handleTextNode ents ke d2 s st2).2.linked ∧
    (Inj.handleTextNode ents ke d1 s st1).2.log =
      (Inj.handleTextNode ents ke d2 s st2).2.log := by
  unfold Inj.handleTextNode
  by_cases hlen : (jsTrim s).length < 3
  · simp [hlen, hl, hg]
  · simp only [hlen, if_false]
    cases ke with
    | some kent =>
      dsimp only
      have hb := Inj.buildNewHtml_inv s (EM.findMatchesInText s kent) st1 st2 hl hg
      by_cases hemp : (EM.findMatchesInText s kent).isEmpty = true
      · simp [hemp, hl, hg]
      · simp only [hemp, Bool.false_eq_true, if_false]
        refine ⟨?_, ?_, ?_⟩
        · rw [hb.1]
        · exact hb.2.1
        · exact hb.2.2
    | none =>
      dsimp only
      have hmeq : (EM.findMatches ents s d1).1 = (EM.findMatches ents s d2).1 :=
        (EM.findMatches_fst ents s d1).trans (EM.findMatches_fst ents s d2).symm
      have hf1 := Inj.mergeState_fields d1 (EM.findMatches ents s d1).2 st1
      have hf2 := Inj.mergeState_fields d2 (EM.findMatches ents s d2).2 st2
      have hb := Inj.buildNewHtml_inv s (EM.findMatches ents s d2).1
        (if d1 = true then
          match (EM.findMatches ents s d1).2, st1.dbg with
          | some d, some gi => { st1 with dbg := some (Inj.mergeDebug gi d) }
          | _, _ => st1
        else st1)
        (if d2 = true then
          match (EM.findMatches ents s d2).2, st2.dbg with
          | some d, some gi => { st2 with dbg := some (Inj.mergeDebug gi d) }
          | _, _ => st2
        else st2)
        (hf1.1.trans (hl.trans hf2.1.symm))
        (hf1.2.trans (hg.trans hf2.2.symm))
      rw [hmeq]
      by_cases hemp : (EM.findMatches ents s d2).1.isEmpty = true
      · simp only [hemp, if_true]
        refine ⟨trivial, ?_, ?_⟩
        · rw [hf1.1, hf2.1, hl]
        · rw [hf1.2, hf2.2, hg]
      · simp only [hemp, Bool.false_eq_true, if_false]
        refine ⟨?_, ?_, ?_⟩
        · rw [hb.1]
        · exact hb.2.1
        · exact hb.2.2

mutual

/-- processElement with diagnostics on or off, from states agreeing on ledger
and log, yields the same output tree, ledger and log. -/
theorem Inj.processElement_inv :
    ∀ (n : HNode) (ents : List Str) (ke : Option (List Str)) (d1 d2 il ir ia : Bool)
      (st1 st2 : Inj.PState),
      st1.linked = st2.linked → st1.log = st2.log →
      (Inj.processElement ents ke d1 il ir ia n st1).1 =
        (Inj.processElement ents ke d2 il ir ia n st2).1 ∧
      (Inj.processElement ents ke d1 il ir ia n st1).2.linked =
        (Inj.processElement ents ke d2 il ir ia n st2).2.linked ∧
      (Inj.processElement ents ke d1 il ir ia n st1).2.log =
        (Inj.processElement ents ke d2 il ir ia n st2).2.log
  | HNode.text s, ents, ke, d1, d2, il, ir, ia, st1, st2, hl, hg => by
    simp only [Inj.processElement]
    exact ⟨trivial, hl, hg⟩
  | HNode.elem a b c d, ents, ke, d1, d2, il, ir, ia, st1, st2, hl, hg => by
    simp only [Inj.processElement]
    by_cases hskip : (!ir &&
        (!(ia && Inj.ALLOW_INSIDE_ARTICLE.contains (a.map Char.toUpper)) &&
          shouldSkipH (HNode.elem a b c d))) = true
    · simp only [hskip, if_true]
      exact ⟨trivial, hl, hg⟩
    · simp only [hskip, Bool.false_eq_true, if_false]
      by_cases hwl : (classNamesOf b).contains (("wikilink").data) = true
      · simp only [hwl, if_true]
        exact ⟨trivial, hl, hg⟩
      · simp only [hwl, Bool.false_eq_true, if_false]
        have hr := Inj.processChildren_inv d ents ke d1 d2
          (il || (a.map Char.toUpper) == ("A").data) ia st1 st2 hl hg
        exact ⟨by rw [hr.1], hr.2.1, hr.2.2⟩

/-- The child loop counterpart of processElement_inv. -/
theorem Inj.processChildren_inv :
    ∀ (l : NodeList) (ents : List Str) (ke : Option (List Str)) (d1 d2 nil2 ia : Bool)
      (st1 st2 : Inj.PState),
      st1.linked = st2.linked → st1.log = st2.log →
      (Inj.processChildren ents ke d1 nil2 ia l st1).1 =
        (Inj.processChildren ents ke d2 nil2 ia l st2).1 ∧
      (Inj.processChildren ents ke d1 nil2 ia l st1).2.linked =
        (Inj.processChildren ents ke d2 nil2 ia l st2).2.linked ∧
      (Inj.processChildren ents ke d1 nil2 ia l st1).2.log =
        (Inj.processChildren ents ke d2 nil2 ia l st2).2.log
  | NodeList.nil, ents, ke, d1, d2, nil2, ia, st1, st2, hl, hg => by
    simp only [Inj.processChildren]
    exact ⟨trivial, hl, hg⟩
  | NodeList.cons (HNode.text s) rest, ents, ke, d1, d2, nil2, ia, st1, st2, hl, hg => by
    simp only [Inj.processChildren]
    by_cases hil : nil2 = true
    · simp only [hil, if_true]
      have hr := Inj.processChildren_inv rest ents ke d1 d2 true ia st1 st2 hl hg
      exact ⟨by rw [hr.1], hr.2.1, hr.2.2⟩
    · simp only [hil, Bool.false_eq_true, if_false]
      have hh := Inj.handleTextNode_inv ents ke d1 d2 s st1 st2 hl hg
      have hr := Inj.processChildren_inv rest ents ke d1 d2 false ia _ _ hh.2.1 hh.2.2
      exact ⟨by rw [hh.1, hr.1], hr.2.1, hr.2.2⟩
  | NodeList.cons (HNode.elem a b c d) rest, ents, ke, d1, d2, nil2, ia, st1, st2, hl, hg => by
    simp only [Inj.processChildren]
    have hp := Inj.processElement_inv (HNode.elem a b c d) ents ke d1 d2 nil2 false ia
      st1 st2 hl hg
    have hr := Inj.processChildren_inv rest ents ke d1 d2 nil2 ia _ _ hp.2.1 hp.2.2
    exact ⟨by rw [hp.1, hr.1], hr.2.1, hr.2.2⟩

end

/-! ### The page-scoped ledger only grows, and each phrase is linked once -/

/-- How one processing step may change the page state: the log grows by some
entries Δ, the ledger grows by exactly the texts of Δ, none of which was
already in the ledger and which are pairwise distinct; debug data presence is
preserved. -/
def Inj.LedgerExtends (st st2 : Inj.PState) : Prop :=
  (∃ Δ : List Inj.LogEntry,
    st2.log = st.log ++ Δ ∧
    st2.linked = st.linked ++ Δ.map Inj.LogEntry.text ∧
    (∀ x ∈ Δ.map Inj.LogEntry.text, x ∉ st.linked) ∧
    (Δ.map Inj.LogEntry.text).Nodup) ∧
  st2.dbg.isSome = st.dbg.isSome

theorem Inj.ledgerExtends_refl (st : Inj.PState) : Inj.LedgerExtends st st :=
  ⟨⟨[], by simp, by simp, by simp, by simp⟩, rfl⟩

theorem Inj.ledgerExtends_trans {a b c : Inj.PState}
    (h1 : Inj.LedgerExtends a b) (h2 : Inj.LedgerExtends b c) : Inj.LedgerExtends a c := by
  obtain ⟨⟨d1, hlog1, hlink1, hdis1, hnd1⟩, hsome1⟩ := h1
  obtain ⟨⟨d2, hlog2, hlink2, hdis2, hnd2⟩, hsome2⟩ := h2
  refine ⟨⟨d1 ++ d2, ?_, ?_, ?_, ?_⟩, hsome2.trans hsome1⟩
  · rw [hlog2, hlog1, List.append_assoc]
  · rw [hlink2, hlink1, List.map_append, List.append_assoc]
  · intro x hx
    rw [List.map_append] at hx
    rcases List.mem_append.mp hx with h | h
    · exact hdis1 x h
    · intro hxa
      exact hdis2 x h (by rw [hlink1]; exact List.mem_append.mpr (Or.inl hxa))
  · rw [List.map_append]
    rw [List.nodup_append]
    refine ⟨hnd1, hnd2, ?_⟩
    intro x hx1 hx2
    exact hdis2 x hx2 (by rw [hlink1]; exact List.mem_append.mpr (Or.inr hx1))

/-- Changing only the debug data by an Option.map is a ledger extension. -/
theorem Inj.ledgerExtends_dbgmap (st : Inj.PState)
    (f : Inj.InjDebugInfo → Inj.InjDebugInfo) :
    Inj.LedgerExtends st { st with dbg := st.dbg.map f } :=
  ⟨⟨[], by simp, by simp, by simp, by simp⟩, by simp⟩

/-- The replacement fold only extends the ledger as described. -/
theorem Inj.buildFold_ledger (t : Str) :
    ∀ (ms : List Match) (html : Str) (li : Nat) (st : Inj.PState),
      Inj.LedgerExtends st (ms.foldl (Inj.buildStep t) ((html, li, st))).2.2
  | [], html, li, st => Inj.ledgerExtends_refl st
  | m :: ms, html, li, st => by
    simp only [List.foldl_cons]
    unfold Inj.buildStep
    simp only
    by_cases hc : st.linked.contains m.text = true
    · simp only [hc, if_true]
      exact Inj.ledgerExtends_trans (Inj.ledgerExtends_dbgmap st _)
        (Inj.buildFold_ledger t ms _ _ _)
    · simp only [hc, Bool.false_eq_true, if_false]
      have hnotmem : m.text ∉ st.linked := by simpa using hc
      have h1 : Inj.LedgerExtends st
          { linked := st.linked ++ [m.text]
            log := st.log ++ [⟨m.text, toWikiUrl m.text,
              extractContext t m.index m.text.length⟩]
            dbg := st.dbg.map (fun gi =>
              { gi with matched := gi.matched ++ [⟨m.text⟩] }) } := by
        refine ⟨⟨[⟨m.text, toWikiUrl m.text, extractContext t m.index m.text.length⟩],
          by simp, by simp, ?_, by simp⟩, by simp⟩
        intro x hx
        simp only [List.map_cons, List.map_nil, List.mem_singleton] at hx
        subst hx
        exact hnotmem
      exact Inj.ledgerExtends_trans h1 (Inj.buildFold_ledger t ms _ _ _)

/-- buildNewHtml only extends the ledger. -/
theorem Inj.buildNewHtml_ledger (t : Str) (ms : List Match) (st : Inj.PState) :
    Inj.LedgerExtends st (Inj.buildNewHtml t ms st).2 := by
  unfold Inj.buildNewHtml
  dsimp only
  exact Inj.buildFold_ledger t ms [] 0 st

/-- Folding matcher debug data into the page state is a ledger extension. -/
theorem Inj.mergeState_ledger (debug : Bool) (r2 : Option EM.DebugData) (st : Inj.PState) :
    Inj.LedgerExtends st
      (if debug then
        match r2, st.dbg with
        | some d, some gi => { st with dbg := some (Inj.mergeDebug gi d) }
        | _, _ => st
      else st) := by
  by_cases h : debug = true
  · cases r2 with
    | none => simp [h]; exact Inj.ledgerExtends_refl st
    | some d =>
      cases hd : st.dbg with
      | none => simp [h, hd]; exact Inj.ledgerExtends_refl st
      | some gi =>
        simp only [h, hd, if_true]
        exact ⟨⟨[], by simp, by simp, by simp, by simp⟩, by simp [hd]⟩
  · simp only [Bool.not_eq_true] at h
    simp only [h, Bool.false_eq_true, if_false]
    exact Inj.ledgerExtends_refl st

/-- handleTextNode only extends the ledger. -/
theorem Inj.handleTextNode_ledger (ents : List Str) (ke : Option (List Str)) (debug : Bool)
    (s : Str) (st : Inj.PState) :
    Inj.LedgerExtends st (Inj.handleTextNode ents ke debug s st).2 := by
  unfold Inj.handleTextNode
  by_cases hlen : (jsTrim s).length < 3
  · simp only [hlen, if_true]
    exact Inj.ledgerExtends_refl st
  · simp only [hlen, if_false]
    cases ke with
    | some kent =>
      dsimp only
      by_cases hemp : (EM.findMatchesInText s kent).isEmpty = true
      · simp only [hemp, if_true]
        exact Inj.ledgerExtends_refl st
      · simp only [hemp, Bool.false_eq_true, if_false]
        exact Inj.buildNewHtml_ledger s _ st
    | none =>
      dsimp only
      have hm := Inj.mergeState_ledger debug (EM.findMatches ents s debug).2 st
      by_cases hemp : (EM.findMatches ents s debug).1.isEmpty = true
      · simp only [hemp, if_true]
        exact hm
      · simp only [hemp, Bool.false_eq_true, if_false]
        exact Inj.ledgerExtends_trans hm (Inj.buildNewHtml_ledger s _ _)

mutual

/-- processElement only extends the page-scoped ledger: the log grows by the
newly linked entries, the ledger grows by exactly their phrases, no phrase
already in the ledger is ever linked again, the new phrases are pairwise
distinct, and debug-data presence is preserved. -/
theorem Inj.processElement_ledger :
    ∀ (n : HNode) (ents : List Str) (ke : Option (List Str)) (debug il ir ia : Bool)
      (st : Inj.PState),
      Inj.LedgerExtends st (Inj.processElement ents ke debug il ir ia n st).2
  | HNode.text s, ents, ke, debug, il, ir, ia, st => by
    simp only [Inj.processElement]
    exact Inj.ledgerExtends_refl st
  | HNode.elem a b c d, ents, ke, debug, il, ir, ia, st => by
    simp only [Inj.processElement]
    by_cases hskip : (!ir &&
        (!(ia && Inj.ALLOW_INSIDE_ARTICLE.contains (a.map Char.toUpper)) &&
          shouldSkipH (HNode.elem a b c d))) = true
    · simp only [hskip, if_true]
      exact Inj.ledgerExtends_refl st
    · simp only [hskip, Bool.false_eq_true, if_false]
      by_cases hwl : (classNamesOf b).contains (("wikilink").data) = true
      · simp only [hwl, if_true]
        exact Inj.ledgerExtends_refl st
      · simp only [hwl, Bool.false_eq_true, if_false]
        exact Inj.processChildren_ledger d ents ke debug _ ia st

/-- The child loop counterpart of processElement_ledger. -/
theorem Inj.processChildren_ledger :
    ∀ (l : NodeList) (ents : List Str) (ke : Option (List Str)) (debug nil2 ia : Bool)
      (st : Inj.PState),
      Inj.LedgerExtends st (Inj.processChildren ents ke debug nil2 ia l st).2
  | NodeList.nil, ents, ke, debug, nil2, ia, st => by
    simp only [Inj.processChildren]
    exact Inj.ledgerExtends_refl st
  | NodeList.cons (HNode.text s) rest, ents, ke, debug, nil2, ia, st => by
    simp only [Inj.processChildren]
    by_cases hil : nil2 = true
    · simp only [hil, if_true]
      exact Inj.processChildren_ledger rest ents ke debug true ia st
    · simp only [hil, Bool.false_eq_true, if_false]
      exact Inj.ledgerExtends_trans (Inj.handleTextNode_ledger ents ke debug s st)
        (Inj.processChildren_ledger rest ents ke debug false ia _)
  | NodeList.cons (HNode.elem a b c d) rest, ents, ke, debug, nil2, ia, st => by
    simp only [Inj.processChildren]
    exact Inj.ledgerExtends_trans
      (Inj.processElement_ledger (HNode.elem a b c d) ents ke debug nil2 false ia st)
      (Inj.processChildren_ledger rest ents ke debug nil2 ia _)

end

/-- The fold of injectWikilinks over the content elements only extends the
ledger. -/
theorem Inj.injectFold_ledger (es : List Str) (ke : Option (List Str)) (debug : Bool) :
    ∀ (els : List HNode) (acc : List HNode) (st : Inj.PState),
      Inj.LedgerExtends st
        ((els.foldl (fun (acc2 : List HNode × Inj.PState) el =>
          let p := Inj.processElement es ke debug false true true el acc2.2
          (acc2.1 ++ [p.1], p.2)) ((acc, st))).2)
  | [], acc, st => Inj.ledgerExtends_refl st
  | el :: rest, acc, st => by
    simp only [List.foldl_cons]
    exact Inj.ledgerExtends_trans
      (Inj.processElement_ledger el es ke debug false true true st)
      (Inj.injectFold_ledger es ke debug rest _ _)

/-- The names wrapped in link fragments of a built DocumentFragment. -/
def Ext.linkNames (fs : List Ext.Frag) : List Str :=
  fs.filterMap (fun f =>
    match f with
    | Ext.Frag.link n _ => some n
    | Ext.Frag.txt _ => none)

theorem Ext.linkNames_append (a b : List Ext.Frag) :
    Ext.linkNames (a ++ b) = Ext.linkNames a ++ Ext.linkNames b := by
  unfold Ext.linkNames
  exact List.filterMap_append _ _ _

/-- Invariant of the extension replacement fold: fragments are appended, the
ledger grows by exactly the newly linked names, the count tracks them, and the
new names avoid the incoming ledger and repeat nothing. -/
theorem Ext.replaceFold_spec (t : Str) :
    ∀ (ms : List Match) (frags : List Ext.Frag) (li cnt : Nat) (linked : List Str),
      ∃ nf : List Ext.Frag,
        (ms.foldl (Ext.replaceStep t) ((frags, li, cnt, linked))).1 = frags ++ nf ∧
        (ms.foldl (Ext.replaceStep t) ((frags, li, cnt, linked))).2.2.2 =
          linked ++ Ext.linkNames nf ∧
        (ms.foldl (Ext.replaceStep t) ((frags, li, cnt, linked))).2.2.1 =
          cnt + (Ext.linkNames nf).length ∧
        (∀ x ∈ Ext.linkNames nf, x ∉ linked) ∧
        (Ext.linkNames nf).Nodup
  | [], frags, li, cnt, linked =>
    ⟨[], by simp, by simp [Ext.linkNames], by simp [Ext.linkNames],
      by simp [Ext.linkNames], by simp [Ext.linkNames]⟩
  | m :: ms, frags, li, cnt, linked => by
    rw [List.foldl_cons]
    by_cases hc : linked.contains m.text = true
    · have hstep : Ext.replaceStep t ((frags, li, cnt, linked)) m =
          ((frags, li, cnt, linked)) := by
        unfold Ext.replaceStep
        dsimp only
        rw [if_pos hc]
      rw [hstep]
      exact Ext.replaceFold_spec t ms frags li cnt linked
    · have hnotmem : m.text ∉ linked := by simpa using hc
      have hstep : Ext.replaceStep t ((frags, li, cnt, linked)) m =
          ((frags ++ (if li < m.index then
              [Ext.Frag.txt ((t.drop li).take (m.index - li))] else []) ++
            [Ext.Frag.link m.text (toWikiUrl m.text)],
            m.index + m.text.length, cnt + 1, linked ++ [m.text])) := by
        unfold Ext.replaceStep
        dsimp only
        rw [if_neg hc]
      rw [hstep]
      obtain ⟨nf, h1, h2, h3, h4, h5⟩ := Ext.replaceFold_spec t ms
        (frags ++ (if li < m.index then
            [Ext.Frag.txt ((t.drop li).take (m.index - li))] else []) ++
          [Ext.Frag.link m.text (toWikiUrl m.text)])
        (m.index + m.text.length) (cnt + 1) (linked ++ [m.text])
      have hpre : Ext.linkNames (if li < m.index then
          [Ext.Frag.txt ((t.drop li).take (m.index - li))] else []) = [] := by
        by_cases hli : li < m.index <;> simp [hli, Ext.linkNames]
      refine ⟨(if li < m.index then
          [Ext.Frag.txt ((t.drop li).take (m.index - li))] else []) ++
          [Ext.Frag.link m.text (toWikiUrl m.text)] ++ nf, ?_, ?_, ?_, ?_, ?_⟩
      · rw [h1]
        simp [List.append_assoc]
      · rw [h2, Ext.linkNames_append, Ext.linkNames_append, hpre]
        simp [Ext.linkNames]
      · rw [h3, Ext.linkNames_append, Ext.linkNames_append, hpre]
        simp [Ext.linkNames]
        omega
      · intro x hx
        rw [Ext.linkNames_append, Ext.linkNames_append, hpre] at hx
        simp only [Ext.linkNames, List.filterMap, List.nil_append] at hx
        rcases List.mem_append.mp hx with h | h
        · simp only [List.mem_singleton] at h
          subst h
          exact hnotmem
        · intro hmem
          exact h4 x h (List.mem_append.mpr (Or.inl hmem))
      · rw [Ext.linkNames_append, Ext.linkNames_append, hpre]
        have hln : Ext.linkNames [Ext.Frag.link m.text (toWikiUrl m.text)] = [m.text] := rfl
        rw [hln]
        simp only [List.nil_append, List.singleton_append]
        rw [List.nodup_cons]
        constructor
        · intro hmem
          exact h4 m.text hmem (List.mem_append.mpr (Or.inr (by simp)))
        · exact h5

/-- The fold of injectWikilinks over the content elements, with diagnostics on
or off, produces the same element list, ledger and log. -/
theorem Inj.injectFold_inv (es : List Str) (ke : Option (List Str)) :
    ∀ (els : List HNode) (acc : List HNode) (st1 st2 : Inj.PState),
      st1.linked = st2.linked → st1.log = st2.log →
      ((els.foldl (fun (acc2 : List HNode × Inj.PState) el =>
          let p := Inj.processElement es ke true false true true el acc2.2
          (acc2.1 ++ [p.1], p.2)) ((acc, st1))).1 =
        (els.foldl (fun (acc2 : List HNode × Inj.PState) el =>
          let p := Inj.processElement es ke false false true true el acc2.2
          (acc2.1 ++ [p.1], p.2)) ((acc, st2))).1) ∧
      ((els.foldl (fun (acc2 : List HNode × Inj.PState) el =>
          let p := Inj.processElement es ke true false true true el acc2.2
          (acc2.1 ++ [p.1], p.2)) ((acc, st1))).2.linked =
        (els.foldl (fun (acc2 : List HNode × Inj.PState) el =>
          let p := Inj.processElement es ke false false true true el acc2.2
          (acc2.1 ++ [p.1], p.2)) ((acc, st2))).2.linked) ∧
      ((els.foldl (fun (acc2 : List HNode × Inj.PState) el =>
          let p := Inj.processElement es ke true false true true el acc2.2
          (acc2.1 ++ [p.1], p.2)) ((acc, st1))).2.log =
        (els.foldl (fun (acc2 : List HNode × Inj.PState) el =>
          let p := Inj.processElement es ke false false true true el acc2.2
          (acc2.1 ++ [p.1], p.2)) ((acc, st2))).2.log)
  | [], acc, st1, st2, hl, hg => ⟨rfl, hl, hg⟩
  | el :: rest, acc, st1, st2, hl, hg => by
    simp only [List.foldl_cons]
    have hp := Inj.processElement_inv el es ke true false false true true st1 st2 hl hg
    rw [hp.1]
    exact Inj.injectFold_inv es ke rest
      (acc ++ [(Inj.processElement es ke false false true true el st2).1])
      (Inj.processElement es ke true false true true el st1).2
      (Inj.processElement es ke false false true true el st2).2 hp.2.1 hp.2.2

/-- C2: once the injection coordinator adds a phrase to the page-scoped
linkedEntities ledger, every later occurrence of that exact phrase on the page
- also in other text nodes - is skipped and never wrapped, and the ledger only
grows: every processElement call is a LedgerExtends step (the log grows by the
new links, whose phrases avoid the existing ledger and repeat nothing), a full
injectWikilinks run links each distinct entity name at most once (its match
log's texts are duplicate-free and the linked count equals the log length),
and the extension content script's replaceTextNode likewise returns a ledger
extended by exactly its freshly wrapped names, which avoid the incoming ledger
and are pairwise distinct. -/
theorem C2_ledger_first_occurrence_only :
    (∀ (ents : List Str) (ke : Option (List Str)) (debug il ir ia : Bool) (n : HNode)
      (st : Inj.PState),
      Inj.LedgerExtends st (Inj.processElement ents ke debug il ir ia n st).2) ∧
    (∀ (es : List Str) (els : List HNode) (debug : Bool) (ke : Option (List Str)),
      ((Inj.injectWikilinks es els debug ke).matchLog.map Inj.LogEntry.text).Nodup ∧
      (Inj.injectWikilinks es els debug ke).linkedCount =
        (Inj.injectWikilinks es els debug ke).matchLog.length) ∧
    (∀ (t : Str) (ms : List Match) (linked : List Str),
      (Ext.replaceTextNode t ms linked).2.2 =
        linked ++ Ext.linkNames (Ext.replaceTextNode t ms linked).1 ∧
      (Ext.linkNames (Ext.replaceTextNode t ms linked).1).Nodup ∧
      ∀ x ∈ Ext.linkNames (Ext.replaceTextNode t ms linked).1, x ∉ linked) := by
  refine ⟨?_, ?_, ?_⟩
  · intro ents ke debug il ir ia n st
    exact Inj.processElement_ledger n ents ke debug il ir ia st
  · intro es els debug ke
    obtain ⟨⟨Δ, hlog, hlink, hdis, hnd⟩, _⟩ := Inj.injectFold_ledger es ke debug els []
      ⟨[], [], if debug then some Inj.emptyDebugInfo else none⟩
    have hml : (Inj.injectWikilinks es els debug ke).matchLog = Δ :=
      hlog.trans (by simp)
    have hlk : (Inj.injectWikilinks es els debug ke).linkedCount =
        (Δ.map Inj.LogEntry.text).length :=
      congrArg List.length (hlink.trans (by simp))
    constructor
    · rw [hml]
      exact hnd
    · rw [hlk, hml, List.length_map]
  · intro t ms linked
    unfold Ext.replaceTextNode
    dsimp only
    obtain ⟨nf, h1, h2, h3, h4, h5⟩ := Ext.replaceFold_spec t ms [] 0 0 linked
    simp only [List.nil_append] at h1
    by_cases hcnt : (ms.foldl (Ext.replaceStep t) (([], 0, 0, linked))).2.2.1 = 0
    · simp only [hcnt, if_pos]
      have hzero : (Ext.linkNames nf).length = 0 := by omega
      have hnil : Ext.linkNames nf = [] := List.length_eq_zero.mp hzero
      have hlinked : (ms.foldl (Ext.replaceStep t) (([], 0, 0, linked))).2.2.2 = linked := by
        rw [h2, hnil, List.append_nil]
      refine ⟨?_, ?_, ?_⟩
      · rw [hlinked]
        simp [Ext.linkNames]
      · simp [Ext.linkNames]
      · simp [Ext.linkNames]
    · simp only [hcnt, if_neg, if_false]
      have htr : Ext.linkNames ((ms.foldl (Ext.replaceStep t) (([], 0, 0, linked))).1 ++
          (if (ms.foldl (Ext.replaceStep t) (([], 0, 0, linked))).2.1 < t.length then
            [Ext.Frag.txt (t.drop (ms.foldl (Ext.replaceStep t) (([], 0, 0, linked))).2.1)]
          else [])) = Ext.linkNames nf := by
        rw [Ext.linkNames_append, h1]
        have : Ext.linkNames (if (ms.foldl (Ext.replaceStep t) (([], 0, 0, linked))).2.1 <
            t.length then
            [Ext.Frag.txt (t.drop (ms.foldl (Ext.replaceStep t) (([], 0, 0, linked))).2.1)]
          else []) = [] := by
          by_cases hli : (ms.foldl (Ext.replaceStep t) (([], 0, 0, linked))).2.1 < t.length <;>
            simp [hli, Ext.linkNames]
        rw [this, List.append_nil]
      refine ⟨?_, ?_, ?_⟩
      · rw [htr, h2]
      · rw [htr]
        exact h5
      · rw [htr]
        exact h4

/-- C9: toggling diagnostics changes no matching outcome: for every catalogue
and buffer, EntityMatcher.findMatches returns the same match list with debug
on as off, and injectWikilinks produces the same transformed content elements,
the same linked count and the same match log with diagnostics on as off. -/
theorem C9_diagnostics_change_nothing :
    (∀ (es : List Str) (t : Str),
      (EM.findMatches es t true).1 = (EM.findMatches es t false).1) ∧
    (∀ (es : List Str) (els : List HNode) (ke : Option (List Str)),
      (Inj.injectWikilinks es els true ke).elements =
        (Inj.injectWikilinks es els false ke).elements ∧
      (Inj.injectWikilinks es els true ke).linkedCount =
        (Inj.injectWikilinks es els false ke).linkedCount ∧
      (Inj.injectWikilinks es els true ke).matchLog =
        (Inj.injectWikilinks es els false ke).matchLog) := by
  constructor
  · intro es t
    exact EM.findMatches_fst es t true
  · intro es els ke
    have h := Inj.injectFold_inv es ke els [] ⟨[], [], some Inj.emptyDebugInfo⟩
      ⟨[], [], none⟩ rfl rfl
    exact ⟨h.1, congrArg List.length h.2.1, h.2.2⟩

/-- Helper for C10: whatever debug data the run accumulated, the returned
debug object carries exactly the six property names of the source's return
literal - and no sentence-start key among them. -/
theorem Inj.debugReport_keys (o : Option Inj.InjDebugInfo) (gi : Inj.InjDebugInfo)
    (h : o = some gi) :
    ((if (true : Bool) = true then
        match o with
        | some gi2 => some (Inj.debugReportOf gi2)
        | none => none
      else none).map (fun r => r.map Prod.fst)) =
      some [("allCandidates" : String), "matched", "skippedNoMatch",
        "skippedOverlap", "skippedPartOfLarger", "skippedAlreadyLinked"] := by
  subst h
  simp [Inj.debugReportOf]

/-- C10: the debug object returned by injectWikilinks always carries exactly
the keys allCandidates, matched, skippedNoMatch, skippedOverlap,
skippedPartOfLarger and skippedAlreadyLinked - the skippedSentenceStart list
that the run collects (second conjunct: it is populated on the spec's own
sentence-start example) is dropped from the returned object, contradicting the
claim that the report contains a sentence-start rejection list. -/
theorem C10_debug_report_drops_sentence_start :
    (∀ (es : List Str) (els : List HNode) (ke : Option (List Str)),
      ((Inj.injectWikilinks es els true ke).debugReport).map
          (fun r => r.map Prod.fst) =
        some [("allCandidates" : String), "matched", "skippedNoMatch",
          "skippedOverlap", "skippedPartOfLarger", "skippedAlreadyLinked"]) ∧
    ((Inj.processElement [("Google").data, ("Barack Obama").data] none true false true true
        (HNode.elem ("p").data [] [] (nlist
          [HNode.text ("Google announced earnings. Barack Obama spoke.").data]))
        ⟨[], [], some Inj.emptyDebugInfo⟩).2.dbg).map
        (fun gi => gi.skippedSentenceStart) =
      some [⟨("Barack Obama").data⟩, ⟨("Google").data⟩] := by
  constructor
  · intro es els ke
    have hl := Inj.injectFold_ledger es ke true els [] ⟨[], [], some Inj.emptyDebugInfo⟩
    have hsome : ((els.foldl (fun (acc2 : List HNode × Inj.PState) el =>
        let p := Inj.processElement es ke true false true true el acc2.2
        (acc2.1 ++ [p.1], p.2)) (([], ⟨[], [], some Inj.emptyDebugInfo⟩))).2).dbg.isSome =
        true := hl.2.trans rfl
    obtain ⟨gi, hgi⟩ := Option.isSome_iff_exists.mp hsome
    exact Inj.debugReport_keys _ gi hgi
  · decide

/-- A small concrete page: one paragraph mentioning Barack Obama. -/
def obamaPara : HNode :=
  HNode.elem ("p").data [] [] (nlist [HNode.text ("We met Barack Obama today.").data])

/-- Witness for C2 at a concrete page and state: the ledger extension holds
for a processElement run over the paragraph with a fresh empty state. -/
theorem C2_ledger_first_occurrence_only_witness :
    Inj.LedgerExtends ⟨[], [], none⟩
      (Inj.processElement [("Barack Obama").data] none false false true true obamaPara
        ⟨[], [], none⟩).2 :=
  C2_ledger_first_occurrence_only.1 [("Barack Obama").data] none false false true true
    obamaPara ⟨[], [], none⟩
